import Mathlib

/-!
# A shallow embedding of `editor.c`

The terminal editor keeps one global `struct editor_config E`.  Here every
function of the source that reads or writes `E` takes the state as an
argument and returns the new state.

Conventions of the embedding

* C `int` values are `Int`; `size_t` lengths are `Nat`.  All values stay far
  from the limits of a machine `int`, no wrap-around is modelled.
* A `char *` buffer is the `List Char` of the bytes that precede the
  terminating NUL the code maintains; the field `size` is kept apart from
  it, as in the source.
* `E.rows + i` is the `i`-th element of the list `rows`; `row_at` and
  `set_row` read and write it.  Reads outside the list (undefined behaviour
  in C) give `empty_row`, writes outside the list are dropped.
* A `for (j = 0; j < n; j++)` loop is a left fold over `List.range n`.
-/

namespace Editor

/-! ## Constants -/

def PICO_TAB_STOP : Int := 8

def Q_TIMES_TO_QUIT : Int := 3

/-- The source's `#define CTRL_KEY(k) ((k)&0x1f)`. -/
def CTRL_KEY (k : Char) : Int := ((k.toNat &&& 0x1f : Nat) : Int)

def BACKSPACE : Int := 127
def ARROW_UP : Int := 1000
def ARROW_DOWN : Int := 1001
def ARROW_LEFT : Int := 1002
def ARROW_RIGHT : Int := 1003
def DEL_KEY : Int := 1004
def HOME_KEY : Int := 1005
def END_KEY : Int := 1006
def PAGE_UP : Int := 1007
def PAGE_DOWN : Int := 1008

/-- The character code of a C character constant, as an `int`. -/
def chr (c : Char) : Int := (c.toNat : Int)

/-- The byte stored by `row->data[at] = c` for an `int c`. -/
def to_char (c : Int) : Char := Char.ofNat (c % 256).toNat

/-! ## Data -/

structure erow where
  size : Int
  rsize : Int
  data : List Char
  render : List Char
deriving DecidableEq, Repr

/-- The last status message: the format string and its integer arguments,
as handed to `editor_set_status_message` (the formatted text and the time
stamp are not modelled). -/
structure status_message where
  fmt : String
  args : List Int
deriving DecidableEq, Repr

structure editor_config where
  cx : Int
  cy : Int
  ry : Int
  rowoff : Int
  coloff : Int
  screenrows : Int
  screencols : Int
  numrows : Int
  dirty : Int
  rows : List erow
  statusmsg : status_message
deriving DecidableEq, Repr

def empty_row : erow := { size := 0, rsize := 0, data := [], render := [] }

/-- The row `E.rows + i`. -/
def row_at (E : editor_config) (i : Int) : erow :=
  if i < 0 then empty_row else E.rows.getD i.toNat empty_row

/-- Store `r` at `E.rows + i`. -/
def set_row (E : editor_config) (i : Int) (r : erow) : editor_config :=
  if i < 0 then E else { E with rows := E.rows.set i.toNat r }

/-- The byte `row->data[j]`; the byte at the end of the list is the NUL. -/
def data_at (row : erow) (j : Nat) : Char := row.data.getD j (Char.ofNat 0)

def editor_set_status_message (E : editor_config) (fmt : String) (args : List Int) :
    editor_config :=
  { E with statusmsg := { fmt := fmt, args := args } }

/-! ## Row operations -/

/-- One pass of the loop body of `editor_row_cy_to_ry`.  `ry` is never
negative, so C's `%` and Lean's agree. -/
def cy_to_ry_step (row : erow) (ry : Int) (j : Nat) : Int :=
  (if data_at row j = '\t' then ry + ((PICO_TAB_STOP - 1) - ry % PICO_TAB_STOP) else ry) + 1

def editor_row_cy_to_ry (row : erow) (cy : Int) : Int :=
  (List.range cy.toNat).foldl (cy_to_ry_step row) 0

/-- The inner loop `while (idx % PICO_TAB_STOP != 0) row->render[idx++] = ' '`
of `editor_update_row`; `idx` is the length of what has been written.  The
loop runs fewer than `PICO_TAB_STOP` times, which is the fuel given to it. -/
def update_row_pad : Nat → List Char → List Char
  | 0, render => render
  | fuel + 1, render =>
    if (render.length : Int) % PICO_TAB_STOP ≠ 0 then update_row_pad fuel (render ++ [' '])
    else render

/-- One pass of the second loop of `editor_update_row`. -/
def update_row_step (row : erow) (render : List Char) (j : Nat) : List Char :=
  if data_at row j = '\t' then update_row_pad PICO_TAB_STOP.toNat (render ++ [' '])
  else render ++ [data_at row j]

/-- The first loop of `editor_update_row`: the number of tabs. -/
def update_row_tabs (row : erow) : Int :=
  (List.range row.size.toNat).foldl (fun tabs j => if data_at row j = '\t' then tabs + 1 else tabs) 0

/-- The number of bytes `editor_update_row` allocates for `render`. -/
def update_row_capacity (row : erow) : Int :=
  row.size + update_row_tabs row * (PICO_TAB_STOP - 1) + 1

def editor_update_row (row : erow) : erow :=
  let render := (List.range row.size.toNat).foldl (update_row_step row) []
  { row with render := render, rsize := (render.length : Int) }

def editor_insert_row (E : editor_config) (at_ : Int) (s : List Char) (len : Nat) :
    editor_config :=
  if at_ < 0 ∨ at_ > E.numrows then E
  else
    let row := editor_update_row
      { size := (len : Int), rsize := 0, data := s.take len, render := [] }
    { E with
      rows := E.rows.take at_.toNat ++ row :: E.rows.drop at_.toNat
      numrows := E.numrows + 1
      dirty := E.dirty + 1 }

def editor_delete_row (E : editor_config) (at_ : Int) : editor_config :=
  if at_ < 0 ∨ at_ ≥ E.numrows then E
  else
    { E with
      rows := E.rows.eraseIdx at_.toNat
      numrows := E.numrows - 1
      dirty := E.dirty + 1 }

/-- The source's `editor_row_insert_char(E.rows + ri, at, c)`. -/
def editor_row_insert_char (E : editor_config) (ri : Int) (at_ : Int) (c : Int) :
    editor_config :=
  let row := row_at E ri
  let at1 := if at_ < 0 ∨ at_ > row.size then row.size else at_
  let row1 : erow :=
    { row with
      data := row.data.take at1.toNat ++ to_char c :: row.data.drop at1.toNat
      size := row.size + 1 }
  let E1 := set_row E ri (editor_update_row row1)
  { E1 with dirty := E1.dirty + 1 }

/-- The source's `editor_row_delete_char(E.rows + ri, at)`.  The `memmove`
shifts the bytes after index `at`, the terminator included, one place down;
for `at == row->size` it moves nothing. -/
def editor_row_delete_char (E : editor_config) (ri : Int) (at_ : Int) : editor_config :=
  let row := row_at E ri
  if at_ < 0 ∨ at_ > row.size then E
  else
    let row1 : erow := { row with data := row.data.eraseIdx at_.toNat, size := row.size - 1 }
    let E1 := set_row E ri (editor_update_row row1)
    { E1 with dirty := E1.dirty + 1 }

/-- The source's `editor_row_append_string(E.rows + ri, s, len)`. -/
def editor_row_append_string (E : editor_config) (ri : Int) (s : List Char) (len : Nat) :
    editor_config :=
  let row := row_at E ri
  let row1 : erow :=
    { row with
      data := row.data.take row.size.toNat ++ s.take len
      size := row.size + (len : Int) }
  let E1 := set_row E ri (editor_update_row row1)
  { E1 with dirty := E1.dirty + 1 }

/-! ## Editor operations -/

def editor_insert_char (E : editor_config) (c : Int) : editor_config :=
  let E1 := if E.cx = E.numrows then editor_insert_row E E.cx [] 0 else E
  let E2 := editor_row_insert_char E1 E1.cx E1.cy c
  { E2 with cy := E2.cy + 1 }

def editor_delete_char (E : editor_config) : editor_config :=
  if E.cx = E.numrows then E
  else if E.cy = 0 ∧ E.cx = 0 then E
  else
    let row := row_at E E.cx
    if E.cy > 0 then
      let E1 := editor_row_delete_char E E.cx (E.cy - 1)
      { E1 with cy := E1.cy - 1 }
    else
      let E1 := { E with cy := (row_at E (E.cx - 1)).size }
      let E2 := editor_row_append_string E1 (E1.cx - 1) row.data row.size.toNat
      let E3 := editor_delete_row E2 E2.cx
      { E3 with cx := E3.cx - 1, dirty := E3.dirty + 1 }

def editor_insert_new_line (E : editor_config) : editor_config :=
  let E3 :=
    if E.cy = 0 then editor_insert_row E E.cx [] 0
    else
      let row := row_at E E.cx
      let E1 := editor_insert_row E (E.cx + 1) (row.data.drop E.cy.toNat) (row.size - E.cy).toNat
      let row1 := row_at E1 E1.cx
      let row2 : erow := { row1 with size := E1.cy, data := row1.data.take E1.cy.toNat }
      let E2 := set_row E1 E1.cx (editor_update_row row2)
      { E2 with dirty := E2.dirty + 1 }
  { E3 with cx := E3.cx + 1, cy := 0 }

/-! ## Input -/

def editor_move_cursor (E : editor_config) (key : Int) : editor_config :=
  let cur_row : Option erow := if E.cx ≥ E.numrows then none else some (row_at E E.cx)
  let E1 : editor_config :=
    if key = ARROW_LEFT then
      if E.cy ≠ 0 then { E with cy := E.cy - 1 }
      else if E.cx > 0 then { E with cx := E.cx - 1, cy := (row_at E (E.cx - 1)).size + 1 }
      else E
    else if key = ARROW_RIGHT then
      match cur_row with
      | some row =>
        if row.size > E.cy then { E with cy := E.cy + 1 }
        else if row.size = E.cy then { E with cx := E.cx + 1, cy := 0 }
        else E
      | none => E
    else if key = ARROW_UP then
      if E.cx > 0 then { E with cx := E.cx - 1 } else E
    else if key = ARROW_DOWN then
      if E.cx < E.numrows then { E with cx := E.cx + 1 } else E
    else E
  let cur_row1 : Option erow := if E1.cx ≥ E1.numrows then none else some (row_at E1 E1.cx)
  let rowlen : Int := match cur_row1 with
    | none => 0
    | some row => row.size
  if E1.cy > rowlen then { E1 with cy := rowlen } else E1

/-- What one call of `editor_process_keypress` leaves behind: the process
has called `exit(0)`, or it goes on with a new state and a new value of the
function's `static int to_quit`. -/
inductive keypress_result where
  | exited : keypress_result
  | running : editor_config → Int → keypress_result
deriving DecidableEq, Repr

def quit_warning : String :=
  "file has been modified, press Ctrl-Q %d more times to quit without saving"

/-- The source's `editor_process_keypress`, after `editor_read_key` has
returned `c`.  `to_quit` is the function's static counter.  `editor_save`
and `editor_find` do file and prompt input/output and are parameters.  The
cases of the `switch` are tested one after the other (their labels are
distinct), and `while (times--)` runs `screenrows` times. -/
def editor_process_keypress (editor_save editor_find : editor_config → editor_config)
    (E : editor_config) (to_quit : Int) (c : Int) : keypress_result :=
  if c = chr '\r' then
    .running (editor_insert_new_line E) Q_TIMES_TO_QUIT
  else if c = CTRL_KEY 'q' then
    if E.dirty ≠ 0 ∧ to_quit > 0 then
      .running (editor_set_status_message E quit_warning [to_quit]) (to_quit - 1)
    else .exited
  else if c = CTRL_KEY 's' then
    .running (editor_save E) Q_TIMES_TO_QUIT
  else if c = CTRL_KEY 'f' then
    .running (editor_find E) Q_TIMES_TO_QUIT
  else if c = PAGE_UP ∨ c = PAGE_DOWN then
    let E1 : editor_config :=
      if c = PAGE_UP then { E with cx := E.rowoff }
      else
        let E0 := { E with cx := E.rowoff + E.screenrows - 1 }
        if E0.cx > E0.numrows then { E0 with cx := E0.numrows } else E0
    let E2 := Nat.iterate
      (fun S => editor_move_cursor S (if c = PAGE_UP then ARROW_UP else ARROW_DOWN))
      E1.screenrows.toNat E1
    .running E2 Q_TIMES_TO_QUIT
  else if c = HOME_KEY then
    .running { E with cy := 0 } Q_TIMES_TO_QUIT
  else if c = END_KEY then
    .running (if E.cx < E.numrows then { E with cy := (row_at E E.cx).size } else E)
      Q_TIMES_TO_QUIT
  else if c = BACKSPACE ∨ c = DEL_KEY ∨ c = CTRL_KEY 'h' then
    let E1 := if c = DEL_KEY then editor_move_cursor E ARROW_RIGHT else E
    .running (editor_delete_char E1) Q_TIMES_TO_QUIT
  else if c = ARROW_UP ∨ c = ARROW_DOWN ∨ c = ARROW_LEFT ∨ c = ARROW_RIGHT then
    .running (editor_move_cursor E c) Q_TIMES_TO_QUIT
  else if c = CTRL_KEY 'l' ∨ c = chr '\x1b' then
    .running E Q_TIMES_TO_QUIT
  else
    .running (editor_insert_char E c) Q_TIMES_TO_QUIT

/-! ## Output -/

def editor_scroll (E : editor_config) : editor_config :=
  let E1 := { E with ry := E.cy }
  let E2 := if E1.cx < E1.numrows then { E1 with ry := editor_row_cy_to_ry (row_at E1 E1.cx) E1.cy }
    else E1
  let E3 := if E2.cx < E2.rowoff then { E2 with rowoff := E2.cx } else E2
  let E4 := if E3.cx ≥ E3.rowoff + E3.screenrows then { E3 with rowoff := E3.cx - E3.screenrows + 1 }
    else E3
  let E5 := if E4.ry < E4.coloff then { E4 with coloff := E4.ry } else E4
  if E5.cy ≥ E5.coloff + E5.screencols then { E5 with coloff := E5.cy - E5.screencols + 1 }
  else E5

/-- The loop of `main`: `editor_refresh_screen` (whose only effect on the
state is `editor_scroll`) and then `editor_process_keypress`, once for each
key that `editor_read_key` delivers, until the process exits. -/
def editor_main_loop (editor_save editor_find : editor_config → editor_config) :
    List Int → editor_config → Int → keypress_result
  | [], E, to_quit => .running E to_quit
  | c :: keys, E, to_quit =>
    match editor_process_keypress editor_save editor_find (editor_scroll E) to_quit c with
    | .exited => .exited
    | .running E1 to_quit1 => editor_main_loop editor_save editor_find keys E1 to_quit1

/-! ## Building states -/

/-- A row as `editor_insert_row` builds it from the bytes of `s`. -/
def mk_row (s : String) : erow :=
  editor_update_row { size := (s.length : Int), rsize := 0, data := s.toList, render := [] }

/-- The state after `init_editor` on a `rows × cols` terminal and one
`editor_insert_row` per line, with `dirty` reset as `editor_open` does. -/
def mk_editor (lines : List String) (screenrows screencols : Int) : editor_config :=
  { cx := 0, cy := 0, ry := 0, rowoff := 0, coloff := 0
    screenrows := screenrows, screencols := screencols
    numrows := (lines.length : Int), dirty := 0
    rows := lines.map mk_row
    statusmsg := { fmt := "", args := [] } }

/-! ## Well-formed states -/

/-- The row count and every row length agree with what is stored. -/
def doc_ok (E : editor_config) : Prop :=
  E.numrows = (E.rows.length : Int) ∧ ∀ row ∈ E.rows, row.size = (row.data.length : Int)

instance (E : editor_config) : Decidable (doc_ok E) := by
  unfold doc_ok; infer_instance

/-- The cursor is on a row of the document, between its first byte and the
place after its last byte. -/
def cursor_on_row (E : editor_config) : Prop :=
  0 ≤ E.cx ∧ E.cx < E.numrows ∧ 0 ≤ E.cy ∧ E.cy ≤ (row_at E E.cx).size

instance (E : editor_config) : Decidable (cursor_on_row E) := by
  unfold cursor_on_row; infer_instance

/-! ## The loop bodies as functions of the byte read -/

/-- The body of the second loop of `editor_update_row`, as a function of the
byte read. -/
def render_step (render : List Char) (ch : Char) : List Char :=
  if ch = '\t' then update_row_pad PICO_TAB_STOP.toNat (render ++ [' ']) else render ++ [ch]

/-- The body of the loop of `editor_row_cy_to_ry`, as a function of the byte
read. -/
def ry_step (ry : Int) (ch : Char) : Int :=
  (if ch = '\t' then ry + ((PICO_TAB_STOP - 1) - ry % PICO_TAB_STOP) else ry) + 1

/-! ## The tab expansion of the specification -/

/-- The number of spaces that stand for a tab met at rendered column `col`:
as many as it takes to reach the next multiple of the tab stop 8. -/
def tab_width (col : Nat) : Nat := 8 - col % 8

/-- The left-to-right tab expansion of the specification, from rendered
column `col` on: a byte that is not a tab is copied, a tab becomes
`tab_width` spaces. -/
def tab_expansion_from : Nat → List Char → List Char
  | _, [] => []
  | col, ch :: rest =>
    if ch = '\t' then
      List.replicate (tab_width col) ' ' ++ tab_expansion_from (col + tab_width col) rest
    else ch :: tab_expansion_from (col + 1) rest

/-- The tab expansion of a whole row, from rendered column 0. -/
def tab_expansion (data : List Char) : List Char := tab_expansion_from 0 data

/-! ## Quitting -/

/-- The state after one warned press of Ctrl-Q in the main loop. -/
def warned (E : editor_config) (q : Int) : editor_config :=
  editor_set_status_message (editor_scroll E) quit_warning [q]

/-! ## Rendered column to raw column -/

/-- The loop of `editor_row_ry_to_cy` from the index `cy` on, `cur_ry` being
the rendered width of the bytes before `cy`.  The fuel is the number of
indices from `cy` up to `row->size`, so it runs out exactly when the loop
condition `cy < row->size` fails.  The body is that of
`editor_row_cy_to_ry`, followed by the test that returns. -/
def ry_to_cy_loop (row : erow) (ry : Int) : Nat → Nat → Int → Nat
  | 0, cy, _ => cy
  | fuel + 1, cy, cur_ry =>
    if cy_to_ry_step row cur_ry cy > ry then cy
    else ry_to_cy_loop row ry fuel (cy + 1) (cy_to_ry_step row cur_ry cy)

def editor_row_ry_to_cy (row : erow) (ry : Int) : Int :=
  (ry_to_cy_loop row ry row.size.toNat 0 0 : Nat)

/-! ## Key decoding -/

/-- One `read(STDIN_FILENO, &c, 1)`: the head of the list of read results,
`some b` for a byte and `none` for a read that gives no byte; after the end
of the list every read gives no byte. -/
def read_byte : List (Option Char) → Option Char × List (Option Char)
  | [] => (none, [])
  | r :: rest => (r, rest)

/-- The first `switch` of `editor_read_key`, on the digit of `ESC [ digit ~`;
`none` when no case matches and control falls through. -/
def read_key_digit (seq1 : Char) : Option Int :=
  if seq1 = '1' then some HOME_KEY
  else if seq1 = '3' then some DEL_KEY
  else if seq1 = '4' then some END_KEY
  else if seq1 = '5' then some PAGE_UP
  else if seq1 = '6' then some PAGE_DOWN
  else if seq1 = '7' then some HOME_KEY
  else if seq1 = '8' then some END_KEY
  else none

/-- The second `switch` of `editor_read_key`, on the letter of `ESC [ letter`,
and the final `return '\x1b'` that control reaches when no case matches. -/
def read_key_letter (seq1 : Char) : Int :=
  if seq1 = 'A' then ARROW_UP
  else if seq1 = 'B' then ARROW_DOWN
  else if seq1 = 'C' then ARROW_RIGHT
  else if seq1 = 'D' then ARROW_LEFT
  else if seq1 = 'H' then HOME_KEY
  else if seq1 = 'F' then END_KEY
  else chr '\x1b'

/-- The part of `editor_read_key` after the first byte was found to be the
escape byte. -/
def read_key_escape (input : List (Option Char)) : Int × List (Option Char) :=
  match read_byte input with
  | (none, rest1) => (chr '\x1b', rest1)
  | (some seq0, rest1) =>
    match read_byte rest1 with
    | (none, rest2) => (chr '\x1b', rest2)
    | (some seq1, rest2) =>
      if seq0 = '[' then
        if seq1 ≥ '0' ∧ seq1 ≤ '9' then
          match read_byte rest2 with
          | (none, rest3) => (chr '\x1b', rest3)
          | (some seq2, rest3) =>
            if seq2 = '~' then
              match read_key_digit seq1 with
              | some key => (key, rest3)
              | none => (read_key_letter seq1, rest3)
            else (read_key_letter seq1, rest3)
        else (read_key_letter seq1, rest2)
      else if seq0 = 'O' then
        if seq1 = 'H' then (HOME_KEY, rest2)
        else if seq1 = 'F' then (END_KEY, rest2)
        else (chr '\x1b', rest2)
      else (chr '\x1b', rest2)

/-- The value of a `char` converted to `int`, as `return c` does for the
`char c` of `editor_read_key`.  The C standard leaves it to the platform
whether `char` is signed; where it is (x86-64 for one) the bytes 0x80..0xFF
are the values -128..-1, where it is not every byte is its code. -/
def char_to_int (char_signed : Bool) (c : Char) : Int :=
  if char_signed = true ∧ 128 ≤ c.toNat then (c.toNat : Int) - 256 else (c.toNat : Int)

/-- The source's `editor_read_key` on the list of the results of the
successive reads (no read fails with an error other than `EAGAIN`), on a
platform whose `char` is signed or not.  The value is the key and the read
results that are left; it is `none` when no byte ever arrives, in which case
the first loop of the source does not end.  A byte that is not the escape
byte is returned by `return c`, the `char` converted to `int`. -/
def editor_read_key (char_signed : Bool) :
    List (Option Char) → Option (Int × List (Option Char))
  | [] => none
  | none :: rest => editor_read_key char_signed rest
  | some c :: rest =>
    if c = '\x1b' then some (read_key_escape rest) else some (char_to_int char_signed c, rest)

/-! ## Find -/

/-- The string a C function reads in a buffer: the bytes before the first
NUL byte.  A buffer of the model ends where the code has written its
terminator, so a buffer that holds no NUL is read whole. -/
def c_string (buf : List Char) : List Char := buf.takeWhile (fun c => c != Char.ofNat 0)

/-- The offset of the first occurrence of the bytes `needle` in the bytes
`hay`, if there is one. -/
def first_occurrence : List Char → List Char → Option Nat
  | [], needle => if needle = [] then some 0 else none
  | c :: hay, needle =>
    if (c :: hay).take needle.length = needle then some 0
    else (first_occurrence hay needle).map (· + 1)

/-- The C library's `strstr` on two buffers: both are read as strings, up
to their first NUL byte, and the result is the offset of the first
occurrence of the one string in the other, if there is one. -/
def strstr (hay needle : List Char) : Option Nat :=
  first_occurrence (c_string hay) (c_string needle)

/-- The loop of `editor_find_callback` from the row index `i` on; the fuel is
the number of indices from `i` up to `E.numrows`. -/
def find_callback_loop (E : editor_config) (query : List Char) : Nat → Int → editor_config
  | 0, _ => E
  | fuel + 1, i =>
    match strstr (row_at E i).render query with
    | some off =>
      { E with
        cx := i
        cy := editor_row_ry_to_cy (row_at E i) (off : Int)
        rowoff := E.numrows }
    | none => find_callback_loop E query fuel (i + 1)

def editor_find_callback (E : editor_config) (query : List Char) (key : Int) : editor_config :=
  if key = chr '\x1b' ∨ key = chr '\r' then E
  else find_callback_loop E query (E.numrows - (E.cx + 1)).toNat (E.cx + 1)

/-! ## The table of escape sequences of the specification -/

/-- The key for the results `s0`, `s1`, `s2` of the three reads that follow
an escape byte (`none`: the read gave no byte), as the specification lists
them: `[`, a digit and `~`; `[` and a letter; `O` and a letter; the escape
value itself for everything else. -/
def escape_table (s0 s1 s2 : Option Char) : Int :=
  if s0 = some '[' ∧ s1 = some '1' ∧ s2 = some '~' then HOME_KEY
  else if s0 = some '[' ∧ s1 = some '3' ∧ s2 = some '~' then DEL_KEY
  else if s0 = some '[' ∧ s1 = some '4' ∧ s2 = some '~' then END_KEY
  else if s0 = some '[' ∧ s1 = some '5' ∧ s2 = some '~' then PAGE_UP
  else if s0 = some '[' ∧ s1 = some '6' ∧ s2 = some '~' then PAGE_DOWN
  else if s0 = some '[' ∧ s1 = some '7' ∧ s2 = some '~' then HOME_KEY
  else if s0 = some '[' ∧ s1 = some '8' ∧ s2 = some '~' then END_KEY
  else if s0 = some '[' ∧ s1 = some 'A' then ARROW_UP
  else if s0 = some '[' ∧ s1 = some 'B' then ARROW_DOWN
  else if s0 = some '[' ∧ s1 = some 'C' then ARROW_RIGHT
  else if s0 = some '[' ∧ s1 = some 'D' then ARROW_LEFT
  else if s0 = some '[' ∧ s1 = some 'H' then HOME_KEY
  else if s0 = some '[' ∧ s1 = some 'F' then END_KEY
  else if s0 = some 'O' ∧ s1 = some 'H' then HOME_KEY
  else if s0 = some 'O' ∧ s1 = some 'F' then END_KEY
  else chr '\x1b'

/-- The string `needle` stands in `hay` at the offset `k`. -/
def occurs_at (hay needle : List Char) (k : Nat) : Prop :=
  k ≤ hay.length ∧ (hay.drop k).take needle.length = needle

instance (hay needle : List Char) (k : Nat) : Decidable (occurs_at hay needle k) := by
  unfold occurs_at; infer_instance

/-! ## Repeated moves -/

/-- The state after `n` successive calls `editor_move_cursor(key)`. -/
def repeat_move : Nat → Int → editor_config → editor_config
  | 0, _, E => E
  | n + 1, key, E => repeat_move n key (editor_move_cursor E key)

/-- The state a call of `editor_process_keypress` goes on with, if it does. -/
def keypress_state : keypress_result → Option editor_config
  | .exited => none
  | .running E _ => some E

/-! ## Properties of all rows, valid cursors -/

/-- The row count is the number of rows and every row has the property
`P`. -/
def rows_all (P : erow → Prop) (E : editor_config) : Prop :=
  E.numrows = (E.rows.length : Int) ∧ ∀ row ∈ E.rows, P row

/-- The `size` of a row is the length of its data, its render is the tab
expansion of its data and `rsize` is the length of the render. -/
def row_synced (row : erow) : Prop :=
  row.size = (row.data.length : Int) ∧ row.render = tab_expansion row.data ∧
    row.rsize = (row.render.length : Int)

instance (row : erow) : Decidable (row_synced row) := by
  unfold row_synced; infer_instance

/-- Every row of the document is in sync with its data. -/
def doc_synced (E : editor_config) : Prop := rows_all row_synced E

instance (E : editor_config) : Decidable (doc_synced E) := by
  unfold doc_synced rows_all; infer_instance

/-- The cursor is on a row of the document, at most one place after its
last byte, or at column 0 of the virtual row after the last row. -/
def cursor_ok (E : editor_config) : Prop :=
  0 ≤ E.cx ∧ E.cx ≤ E.numrows ∧ 0 ≤ E.cy ∧
    E.cy ≤ (if E.cx < E.numrows then (row_at E E.cx).size else 0)

instance (E : editor_config) : Decidable (cursor_ok E) := by
  unfold cursor_ok; infer_instance

/-! ## The two parts of `editor_move_cursor` -/

/-- The `switch` of `editor_move_cursor`. -/
def move_cursor_step (E : editor_config) (key : Int) : editor_config :=
  let cur_row : Option erow := if E.cx ≥ E.numrows then none else some (row_at E E.cx)
  if key = ARROW_LEFT then
    if E.cy ≠ 0 then { E with cy := E.cy - 1 }
    else if E.cx > 0 then { E with cx := E.cx - 1, cy := (row_at E (E.cx - 1)).size + 1 }
    else E
  else if key = ARROW_RIGHT then
    match cur_row with
    | some row =>
      if row.size > E.cy then { E with cy := E.cy + 1 }
      else if row.size = E.cy then { E with cx := E.cx + 1, cy := 0 }
      else E
    | none => E
  else if key = ARROW_UP then
    if E.cx > 0 then { E with cx := E.cx - 1 } else E
  else if key = ARROW_DOWN then
    if E.cx < E.numrows then { E with cx := E.cx + 1 } else E
  else E

/-- The last statements of `editor_move_cursor`, which clamp the column to
the length of the row the cursor is on. -/
def move_cursor_clamp (E1 : editor_config) : editor_config :=
  let cur_row1 : Option erow := if E1.cx ≥ E1.numrows then none else some (row_at E1 E1.cx)
  let rowlen : Int := match cur_row1 with
    | none => 0
    | some row => row.size
  if E1.cy > rowlen then { E1 with cy := rowlen } else E1

/-! ## Example states -/

/-- A file of one line of ten tabs on an 80 column terminal, the cursor
moved to the end of the line. -/
def tabs_state : editor_config :=
  { mk_editor ["\t\t\t\t\t\t\t\t\t\t"] 24 80 with cy := 10 }

/-- A three line file on a screen of two text rows, the cursor on the last
line. -/
def scroll_state : editor_config :=
  { mk_editor ["abc", "def", "ghi"] 2 80 with cx := 2 }

/-- A modified one line document on a 24 × 80 screen. -/
def dirty_state : editor_config :=
  { mk_editor ["abc"] 24 80 with dirty := 1 }

/-- The file "abc", "def", "ghi" with the cursor at row 1, column 3. -/
def three_lines : editor_config :=
  { mk_editor ["abc", "def", "ghi"] 24 80 with cx := 1, cy := 3 }

/-- The state "abc", "def", "ghi" with the cursor at the start of row 1. -/
def join_state : editor_config :=
  { mk_editor ["abc", "def", "ghi"] 24 80 with cx := 1 }

/-- The one line file "abc" with the cursor on the virtual row after it. -/
def past_end_state : editor_config :=
  { mk_editor ["abc"] 24 80 with cx := 1 }

/-- The row with the bytes `a`, tab, `b`, before its render is built. -/
def tab_row : erow := { size := 3, rsize := 0, data := "a\tb".toList, render := [] }

/-- The row with the bytes `abcdefg` and a tab, before its render is
built. -/
def tab_at_seven : erow :=
  { size := 8, rsize := 0, data := "abcdefg\t".toList, render := [] }

/-- A five line file on a screen of two text rows that shows the rows 2 and
3, the cursor on row 3. -/
def five_lines : editor_config :=
  { mk_editor ["a", "b", "c", "d", "e"] 2 80 with cx := 3, rowoff := 2 }

/-- A file of one empty line. -/
def empty_line_state : editor_config := mk_editor [""] 24 80

/-- The byte 0xE9 arrives as the first byte. -/
def high_byte_input : List (Option Char) := [some (Char.ofNat 0xE9)]

/-- A file of three lines, the second of which holds a NUL byte before the
bytes `def`, with the cursor on the first line. -/
def nul_rows : editor_config := mk_editor ["x", "a\x00def", "def"] 24 80

/-! ## The viewport -/

/-- C1, evaluated on the code: with a line of ten tabs, the cursor at its
end and 80 screen columns, `editor_scroll` leaves `coloff = 0` and computes
`ry = 80`, which is outside `[coloff, coloff + screencols)`; the state is a
non-empty document with a valid cursor. -/
theorem editor_scroll_ry_outside_window :
    doc_ok tabs_state ∧ cursor_on_row tabs_state ∧ 1 ≤ tabs_state.screencols ∧
    (editor_scroll tabs_state).ry = 80 ∧ (editor_scroll tabs_state).coloff = 0 ∧
    ¬ ((editor_scroll tabs_state).ry <
        (editor_scroll tabs_state).coloff + (editor_scroll tabs_state).screencols) := by
  decide

/-- C2: with `screenrows ≥ 1`, after `editor_scroll` the cursor row is
inside the row window, `rowoff ≤ cx < rowoff + screenrows`; `rowoff` becomes
`cx` when the cursor was above the window, `cx - screenrows + 1` when it was
below, and is unchanged otherwise.  The cursor row and `screenrows`
themselves are not touched. -/
theorem editor_scroll_row_window (E : editor_config) (h : 1 ≤ E.screenrows) :
    (editor_scroll E).cx = E.cx ∧ (editor_scroll E).screenrows = E.screenrows ∧
    (editor_scroll E).rowoff ≤ (editor_scroll E).cx ∧
    (editor_scroll E).cx < (editor_scroll E).rowoff + (editor_scroll E).screenrows ∧
    (E.cx < E.rowoff → (editor_scroll E).rowoff = E.cx) ∧
    (E.cx ≥ E.rowoff + E.screenrows → (editor_scroll E).rowoff = E.cx - E.screenrows + 1) ∧
    (E.rowoff ≤ E.cx → E.cx < E.rowoff + E.screenrows → (editor_scroll E).rowoff = E.rowoff) := by
  unfold editor_scroll
  dsimp only
  split_ifs <;> dsimp only at * <;> omega

/-- The row window of C2 on `scroll_state`: the cursor is below the window
and `rowoff` is raised from 0 to 1. -/
theorem editor_scroll_row_window_witness :
    1 ≤ scroll_state.screenrows ∧ (editor_scroll scroll_state).rowoff = 1 ∧
    (editor_scroll scroll_state).rowoff ≤ (editor_scroll scroll_state).cx ∧
    (editor_scroll scroll_state).cx <
      (editor_scroll scroll_state).rowoff + (editor_scroll scroll_state).screenrows :=
  ⟨by decide, by decide,
    (editor_scroll_row_window scroll_state (by decide)).2.2.1,
    (editor_scroll_row_window scroll_state (by decide)).2.2.2.1⟩

/-! ## The part of the state `editor_scroll` leaves alone -/

theorem editor_scroll_keeps (E : editor_config) :
    (editor_scroll E).dirty = E.dirty ∧ (editor_scroll E).rows = E.rows ∧
    (editor_scroll E).numrows = E.numrows ∧ (editor_scroll E).cx = E.cx ∧
    (editor_scroll E).cy = E.cy ∧ (editor_scroll E).statusmsg = E.statusmsg := by
  unfold editor_scroll
  dsimp only
  split_ifs <;> simp

/-! ## Quitting -/

/-- One press of Ctrl-Q while the countdown is positive and the document is
dirty: a warning, one less on the countdown, no exit. -/
theorem ctrl_q_warns (sv fd : editor_config → editor_config) (E : editor_config)
    (q : Int) (hd : E.dirty ≠ 0) (hq : 0 < q) :
    editor_process_keypress sv fd E q (CTRL_KEY 'q') =
      .running (editor_set_status_message E quit_warning [q]) (q - 1) := by
  have h1 : CTRL_KEY 'q' ≠ chr (Char.ofNat 13) := by decide
  simp [editor_process_keypress, h1, hd, hq]

/-- One press of Ctrl-Q once the countdown is used up: exit. -/
theorem ctrl_q_exits (sv fd : editor_config → editor_config) (E : editor_config) :
    editor_process_keypress sv fd E 0 (CTRL_KEY 'q') = .exited := by
  have h1 : CTRL_KEY 'q' ≠ chr (Char.ofNat 13) := by decide
  simp [editor_process_keypress, h1]

theorem warned_keeps (E : editor_config) (q : Int) :
    (warned E q).statusmsg = { fmt := quit_warning, args := [q] } ∧
    (warned E q).dirty = E.dirty ∧ (warned E q).rows = E.rows ∧
    (warned E q).numrows = E.numrows ∧ (warned E q).cx = E.cx ∧ (warned E q).cy = E.cy := by
  simp [warned, editor_set_status_message, editor_scroll_keeps]

theorem main_loop_warns (sv fd : editor_config → editor_config) (keys : List Int)
    (E : editor_config) (q : Int) (hd : E.dirty ≠ 0) (hq : 0 < q) :
    editor_main_loop sv fd (CTRL_KEY 'q' :: keys) E q =
      editor_main_loop sv fd keys (warned E q) (q - 1) := by
  have h : (editor_scroll E).dirty ≠ 0 := by rw [(editor_scroll_keeps E).1]; exact hd
  simp only [editor_main_loop, ctrl_q_warns sv fd _ q h hq, warned]

theorem main_loop_exits (sv fd : editor_config → editor_config) (keys : List Int)
    (E : editor_config) : editor_main_loop sv fd (CTRL_KEY 'q' :: keys) E 0 = .exited := by
  simp only [editor_main_loop, ctrl_q_exits]

/-- C3 as stated fails: with a non-zero dirty counter and the countdown at
`Q_TIMES_TO_QUIT = 3`, three consecutive presses of Ctrl-Q leave the editor
running. -/
theorem quit_third_press_keeps_running :
    dirty_state.dirty ≠ 0 ∧
    editor_main_loop id id [CTRL_KEY 'q', CTRL_KEY 'q', CTRL_KEY 'q'] dirty_state
      Q_TIMES_TO_QUIT ≠ .exited := by
  decide

/-- C3, amended: with a non-zero dirty counter and the countdown at
`Q_TIMES_TO_QUIT = 3`, the editor exits on exactly the fourth consecutive
press of Ctrl-Q.  Each of the first three presses sets the warning (with the
countdown value 3, 2, 1 as its argument), lowers the countdown by one and
returns with document, cursor and dirty counter as they were.  Any key other
than Ctrl-Q, in any state, leaves the countdown at 3 and does not exit. -/
theorem quit_on_fourth_press (sv fd : editor_config → editor_config) (E : editor_config)
    (hd : E.dirty ≠ 0) :
    (∀ k : Nat, 1 ≤ k → k ≤ 3 → ∃ E1 : editor_config,
      editor_main_loop sv fd (List.replicate k (CTRL_KEY 'q')) E Q_TIMES_TO_QUIT =
        .running E1 (3 - (k : Int)) ∧
      E1.statusmsg = { fmt := quit_warning, args := [4 - (k : Int)] } ∧
      E1.dirty = E.dirty ∧ E1.rows = E.rows ∧ E1.numrows = E.numrows ∧
      E1.cx = E.cx ∧ E1.cy = E.cy) ∧
    editor_main_loop sv fd (List.replicate 4 (CTRL_KEY 'q')) E Q_TIMES_TO_QUIT = .exited ∧
    (∀ (S : editor_config) (to_quit c : Int), c ≠ CTRL_KEY 'q' →
      ∃ S1 : editor_config,
        editor_process_keypress sv fd S to_quit c = .running S1 Q_TIMES_TO_QUIT) := by
  have d1 : (warned E 3).dirty ≠ 0 := by rw [(warned_keeps E 3).2.1]; exact hd
  have d2 : (warned (warned E 3) 2).dirty ≠ 0 := by rw [(warned_keeps _ 2).2.1]; exact d1
  have e1 : (3 : Int) - 1 = 2 := by norm_num
  have e2 : (2 : Int) - 1 = 1 := by norm_num
  have e3 : (1 : Int) - 1 = 0 := by norm_num
  refine ⟨?_, ?_, ?_⟩
  · intro k h1 h3
    obtain rfl | rfl | rfl : k = 1 ∨ k = 2 ∨ k = 3 := by omega
    · refine ⟨warned E 3, ?_, ?_⟩
      · simp only [List.replicate, Q_TIMES_TO_QUIT]
        rw [main_loop_warns sv fd _ E 3 hd (by decide), e1]
        rfl
      · simp [warned_keeps]
    · refine ⟨warned (warned E 3) 2, ?_, ?_⟩
      · simp only [List.replicate, Q_TIMES_TO_QUIT]
        rw [main_loop_warns sv fd _ E 3 hd (by decide), e1,
          main_loop_warns sv fd _ _ 2 d1 (by decide), e2]
        rfl
      · simp [warned_keeps]
    · refine ⟨warned (warned (warned E 3) 2) 1, ?_, ?_⟩
      · simp only [List.replicate, Q_TIMES_TO_QUIT]
        rw [main_loop_warns sv fd _ E 3 hd (by decide), e1,
          main_loop_warns sv fd _ _ 2 d1 (by decide), e2,
          main_loop_warns sv fd _ _ 1 d2 (by decide), e3]
        rfl
      · simp [warned_keeps]
  · simp only [List.replicate, Q_TIMES_TO_QUIT]
    rw [main_loop_warns sv fd _ E 3 hd (by decide), e1,
      main_loop_warns sv fd _ _ 2 d1 (by decide), e2,
      main_loop_warns sv fd _ _ 1 d2 (by decide), e3]
    exact main_loop_exits sv fd [] _
  · intro S to_quit c hc
    unfold editor_process_keypress
    by_cases h1 : c = chr '\r'
    · rw [if_pos h1]; exact ⟨_, rfl⟩
    rw [if_neg h1, if_neg hc]
    by_cases h2 : c = CTRL_KEY 's'
    · rw [if_pos h2]; exact ⟨_, rfl⟩
    rw [if_neg h2]
    by_cases h3 : c = CTRL_KEY 'f'
    · rw [if_pos h3]; exact ⟨_, rfl⟩
    rw [if_neg h3]
    by_cases h4 : c = PAGE_UP ∨ c = PAGE_DOWN
    · rw [if_pos h4]; exact ⟨_, rfl⟩
    rw [if_neg h4]
    by_cases h5 : c = HOME_KEY
    · rw [if_pos h5]; exact ⟨_, rfl⟩
    rw [if_neg h5]
    by_cases h6 : c = END_KEY
    · rw [if_pos h6]; exact ⟨_, rfl⟩
    rw [if_neg h6]
    by_cases h7 : c = BACKSPACE ∨ c = DEL_KEY ∨ c = CTRL_KEY 'h'
    · rw [if_pos h7]; exact ⟨_, rfl⟩
    rw [if_neg h7]
    by_cases h8 : c = ARROW_UP ∨ c = ARROW_DOWN ∨ c = ARROW_LEFT ∨ c = ARROW_RIGHT
    · rw [if_pos h8]; exact ⟨_, rfl⟩
    rw [if_neg h8]
    by_cases h9 : c = CTRL_KEY 'l' ∨ c = chr '\x1b'
    · rw [if_pos h9]; exact ⟨_, rfl⟩
    rw [if_neg h9]; exact ⟨_, rfl⟩

/-- The four presses of C3 (amended) on `dirty_state`, with a save and a
search that do nothing. -/
theorem quit_on_fourth_press_witness :
    dirty_state.dirty ≠ 0 ∧
    editor_main_loop id id (List.replicate 4 (CTRL_KEY 'q')) dirty_state Q_TIMES_TO_QUIT =
      .exited :=
  ⟨by decide, (quit_on_fourth_press id id dirty_state (by decide)).2.1⟩

/-! ## Lists around one element -/

theorem take_mid {α : Type} (A B : List α) (x : α) : (A ++ x :: B).take A.length = A := by
  simp

theorem drop_mid {α : Type} (A B : List α) (x : α) :
    (A ++ x :: B).drop A.length = x :: B := by
  simp

theorem take_mid_succ {α : Type} (A B : List α) (x : α) :
    (A ++ x :: B).take (A.length + 1) = A ++ [x] := by
  have h : A ++ x :: B = (A ++ [x]) ++ B := by simp
  rw [h]
  have hl : A.length + 1 = (A ++ [x]).length := by simp
  rw [hl, List.take_left']
  rfl

theorem drop_mid_succ {α : Type} (A B : List α) (x : α) :
    (A ++ x :: B).drop (A.length + 1) = B := by
  have h : A ++ x :: B = (A ++ [x]) ++ B := by simp
  rw [h]
  have hl : A.length + 1 = (A ++ [x]).length := by simp
  rw [hl, List.drop_left']
  rfl

theorem set_mid {α : Type} (A B : List α) (x y : α) :
    (A ++ x :: B).set A.length y = A ++ y :: B := by
  induction A with
  | nil => rfl
  | cons a A ih => simp [ih]

theorem getD_mid {α : Type} (A B : List α) (x d : α) : (A ++ x :: B).getD A.length d = x := by
  induction A with
  | nil => rfl
  | cons a A ih => simpa using ih

theorem eraseIdx_mid {α : Type} (A B : List α) (x : α) :
    (A ++ x :: B).eraseIdx A.length = A ++ B := by
  induction A with
  | nil => rfl
  | cons a A ih => simp [ih]

/-- A list splits around each of its positions. -/
theorem split_at_index {α : Type} (l : List α) (n : Nat) (h : n < l.length) :
    ∃ A x B, l = A ++ x :: B ∧ A.length = n ∧ A = l.take n ∧ B = l.drop (n + 1) := by
  refine ⟨l.take n, l.get ⟨n, h⟩, l.drop (n + 1), ?_, ?_, rfl, rfl⟩
  · simp
  · simp; omega

/-! ## Reading and writing one row of the state -/

theorem row_at_mid (E : editor_config) (A B : List erow) (row : erow)
    (hr : E.rows = A ++ row :: B) (i : Int) (hi : i = (A.length : Int)) :
    row_at E i = row := by
  subst hi
  have h : ¬ ((A.length : Int) < 0) := by omega
  rw [row_at, if_neg h, hr, Int.toNat_ofNat]
  exact getD_mid A B row empty_row

theorem set_row_mid (E : editor_config) (A B : List erow) (row r : erow)
    (hr : E.rows = A ++ row :: B) (i : Int) (hi : i = (A.length : Int)) :
    set_row E i r = { E with rows := A ++ r :: B } := by
  subst hi
  have h : ¬ ((A.length : Int) < 0) := by omega
  simp [set_row, h, hr, set_mid]

theorem editor_update_row_data (row : erow) : (editor_update_row row).data = row.data := rfl

theorem editor_update_row_size (row : erow) : (editor_update_row row).size = row.size := rfl

/-! ## Splitting a row -/

/-- The rows after `editor_insert_new_line`, the cursor row being `row`
between the rows `A` and the rows `B`. -/
theorem insert_new_line_rows (E : editor_config) (A B : List erow) (row : erow)
    (hr : E.rows = A ++ row :: B) (hx : E.cx = (A.length : Int))
    (hn : E.numrows = (E.rows.length : Int)) :
    editor_insert_new_line E =
      { E with
        rows :=
          if E.cy = 0 then
            A ++ editor_update_row { size := 0, rsize := 0, data := [], render := [] } ::
              row :: B
          else
            A ++ editor_update_row
                { row with size := E.cy, data := row.data.take E.cy.toNat } ::
              editor_update_row
                { size := ((row.size - E.cy).toNat : Int), rsize := 0,
                  data := (row.data.drop E.cy.toNat).take (row.size - E.cy).toNat,
                  render := [] } :: B
        numrows := E.numrows + 1
        dirty := if E.cy = 0 then E.dirty + 1 else E.dirty + 1 + 1
        cx := E.cx + 1
        cy := 0 } := by
  have hlen : E.numrows = (A.length : Int) + 1 + (B.length : Int) := by
    rw [hn, hr]; simp; omega
  have c1 : ¬ (E.cx < 0 ∨ E.cx > E.numrows) := by omega
  have c2 : ¬ (E.cx + 1 < 0 ∨ E.cx + 1 > E.numrows) := by omega
  have t1 : E.cx.toNat = A.length := by omega
  have t2 : (E.cx + 1).toNat = A.length + 1 := by omega
  by_cases hcy : E.cy = 0
  · simp [editor_insert_new_line, editor_insert_row, hcy, c1, t1, hr]
  · have hrow : row_at
        { E with
          rows := A ++ row :: editor_update_row
            { size := ((row.size - E.cy).toNat : Int), rsize := 0,
              data := (row.data.drop E.cy.toNat).take (row.size - E.cy).toNat,
              render := [] } :: B
          numrows := E.numrows + 1
          dirty := E.dirty + 1 } E.cx = row := row_at_mid _ A _ row rfl _ hx
    have hrow0 : row_at E E.cx = row := row_at_mid E A B row hr _ hx
    simp only [editor_insert_new_line, editor_insert_row, hcy, c2, t2, hr, if_false, hrow0,
      take_mid_succ, drop_mid_succ, List.append_assoc, List.singleton_append]
    rw [hrow]
    rw [set_row_mid _ A _ row _ rfl _ hx]

/-- A well-formed state with the cursor on a row splits around that row. -/
theorem split_at_cursor (E : editor_config) (hd : doc_ok E) (hc : cursor_on_row E) :
    ∃ A row B, E.rows = A ++ row :: B ∧ E.cx = (A.length : Int) ∧ row_at E E.cx = row ∧
      A = E.rows.take E.cx.toNat ∧ B = E.rows.drop (E.cx.toNat + 1) ∧
      row.size = (row.data.length : Int) ∧ 0 ≤ E.cy ∧ E.cy ≤ (row.data.length : Int) ∧
      (∀ r ∈ A, r.size = (r.data.length : Int)) ∧ (∀ r ∈ B, r.size = (r.data.length : Int)) := by
  obtain ⟨hn, hsz⟩ := hd
  obtain ⟨h0, h1, h2, h3⟩ := hc
  have hlt : E.cx.toNat < E.rows.length := by omega
  obtain ⟨A, row, B, hr, hA, hAt, hBd⟩ := split_at_index E.rows E.cx.toNat hlt
  have hx : E.cx = (A.length : Int) := by omega
  have hrow : row_at E E.cx = row := row_at_mid E A B row hr _ hx
  have hs : row.size = (row.data.length : Int) := hsz row (by rw [hr]; simp)
  refine ⟨A, row, B, hr, hx, hrow, hAt, hBd, hs, h2, ?_, ?_, ?_⟩
  · rw [hrow] at h3; omega
  · intro r hrA; exact hsz r (by rw [hr]; simp [hrA])
  · intro r hrB; exact hsz r (by rw [hr]; simp [hrB])

/-- C5: on a well-formed document with the cursor at `(r, c)` on a row,
`editor_insert_new_line` gives `numrows + 1` rows: the rows before `r`
unchanged, then the old bytes `[0, c)` of row `r`, then its old bytes
`[c, size)`, then the rows after `r` unchanged; the cursor is at `(r + 1, 0)`
and every `size` still is the length of its row. -/
theorem editor_insert_new_line_splits (E : editor_config) (hd : doc_ok E)
    (hc : cursor_on_row E) :
    (editor_insert_new_line E).numrows = E.numrows + 1 ∧
    (editor_insert_new_line E).rows.map erow.data =
      (E.rows.take E.cx.toNat).map erow.data ++
        (row_at E E.cx).data.take E.cy.toNat :: (row_at E E.cx).data.drop E.cy.toNat ::
          (E.rows.drop (E.cx.toNat + 1)).map erow.data ∧
    (editor_insert_new_line E).cx = E.cx + 1 ∧ (editor_insert_new_line E).cy = 0 ∧
    doc_ok (editor_insert_new_line E) := by
  obtain ⟨A, row, B, hr, hx, hrow, hA, hB, hs, h0, h1, hsA, hsB⟩ := split_at_cursor E hd hc
  have hnl := insert_new_line_rows E A B row hr hx hd.1
  have hn := hd.1
  rw [hr] at hn
  have hk : (row.size - E.cy).toNat = (row.data.drop E.cy.toNat).length := by
    rw [List.length_drop]; omega
  rw [hnl, hrow, ← hA, ← hB]
  refine ⟨rfl, ?_, rfl, rfl, ?_, ?_⟩
  · by_cases hcy : E.cy = 0
    · simp [hcy, editor_update_row_data]
    · simp only [hcy, if_false, List.map_append, List.map_cons, editor_update_row_data, hk,
        List.take_length]
  · by_cases hcy : E.cy = 0
    · simp [hcy, hn]; omega
    · simp [hcy, hn]; omega
  · intro r hrm
    by_cases hcy : E.cy = 0
    · simp only [hcy, if_true, List.mem_append, List.mem_cons] at hrm
      rcases hrm with h | h | h | h
      · exact hsA r h
      · subst h; rfl
      · subst h; exact hs
      · exact hsB r h
    · simp only [hcy, if_false, List.mem_append, List.mem_cons] at hrm
      rcases hrm with h | h | h | h
      · exact hsA r h
      · subst h
        simp only [editor_update_row_size, editor_update_row_data, List.length_take]
        omega
      · subst h
        simp only [editor_update_row_size, editor_update_row_data, List.length_take,
          List.length_drop]
        omega
      · exact hsB r h

/-- The end-to-end example of C5: Enter at row 1, column 3 of "abc", "def",
"ghi" gives the four rows "abc", "def", "", "ghi" and the cursor (2, 0). -/
theorem editor_insert_new_line_splits_witness :
    doc_ok three_lines ∧ cursor_on_row three_lines ∧
    (editor_insert_new_line three_lines).numrows = 4 ∧
    (editor_insert_new_line three_lines).rows.map erow.data =
      ["abc".toList, "def".toList, "".toList, "ghi".toList] ∧
    (editor_insert_new_line three_lines).cx = 2 ∧ (editor_insert_new_line three_lines).cy = 0 :=
  have h := editor_insert_new_line_splits three_lines (by decide) (by decide)
  ⟨by decide, by decide, h.1, h.2.1, h.2.2.1, h.2.2.2.1⟩

/-! ## Deleting -/

/-- The state after `editor_delete_char` with the cursor at column 0 of the
row `row`, which follows the row `prev`. -/
theorem delete_char_join (E : editor_config) (A B : List erow) (prev row : erow)
    (hr : E.rows = A ++ prev :: row :: B) (hx : E.cx = (A.length : Int) + 1)
    (hn : E.numrows = (E.rows.length : Int)) (hcy : E.cy = 0) :
    editor_delete_char E =
      { E with
        rows := A ++ editor_update_row
          { prev with
            data := prev.data.take prev.size.toNat ++ row.data.take row.size.toNat
            size := prev.size + (row.size.toNat : Int) } :: B
        numrows := E.numrows - 1
        dirty := E.dirty + 1 + 1 + 1
        cx := E.cx - 1
        cy := prev.size } := by
  have hlen : E.numrows = (A.length : Int) + 2 + (B.length : Int) := by
    rw [hn, hr]; simp; omega
  have hr1 : E.rows = (A ++ [prev]) ++ row :: B := by rw [hr]; simp
  have c1 : ¬ (E.cx = E.numrows) := by omega
  have c2 : ¬ (E.cy = 0 ∧ E.cx = 0) := by omega
  have c3 : ¬ (E.cy > 0) := by omega
  have c4 : ¬ (E.cx < 0 ∨ E.cx ≥ E.numrows) := by omega
  have hprev : row_at E (E.cx - 1) = prev := row_at_mid E A (row :: B) prev hr _ (by omega)
  have hrow : row_at E E.cx = row :=
    row_at_mid E (A ++ [prev]) B row hr1 _ (by rw [hx]; simp)
  have t1 : E.cx.toNat = (A ++ [editor_update_row
      { prev with
        data := prev.data.take prev.size.toNat ++ row.data.take row.size.toNat
        size := prev.size + (row.size.toNat : Int) }]).length := by
    simp; omega
  have hset := set_row_mid { E with cy := prev.size } A (row :: B) prev
    (editor_update_row
      { prev with
        data := prev.data.take prev.size.toNat ++ row.data.take row.size.toNat
        size := prev.size + (row.size.toNat : Int) }) hr (E.cx - 1) (by omega)
  have hrow1 : row_at { E with cy := prev.size } (E.cx - 1) = prev :=
    row_at_mid _ A (row :: B) prev hr _ (by omega)
  simp only [editor_delete_char, c1, c2, c3, if_false, hprev, hrow, editor_row_append_string,
    hrow1, hset, editor_delete_row, c4, t1]
  have e1 : A ++ editor_update_row
      { prev with
        data := prev.data.take prev.size.toNat ++ row.data.take row.size.toNat
        size := prev.size + (row.size.toNat : Int) } :: row :: B =
      (A ++ [editor_update_row
      { prev with
        data := prev.data.take prev.size.toNat ++ row.data.take row.size.toNat
        size := prev.size + (row.size.toNat : Int) }]) ++ row :: B := by simp
  rw [e1, eraseIdx_mid]
  simp

/-- The state after `editor_delete_char` with the cursor behind at least
one byte of the row `row`. -/
theorem delete_char_in_row (E : editor_config) (A B : List erow) (row : erow)
    (hr : E.rows = A ++ row :: B) (hx : E.cx = (A.length : Int))
    (hn : E.numrows = (E.rows.length : Int)) (hcy : 0 < E.cy) (hle : E.cy ≤ row.size) :
    editor_delete_char E =
      { E with
        rows := A ++ editor_update_row
          { row with data := row.data.eraseIdx (E.cy - 1).toNat, size := row.size - 1 } :: B
        dirty := E.dirty + 1
        cy := E.cy - 1 } := by
  have hlen : E.numrows = (A.length : Int) + 1 + (B.length : Int) := by
    rw [hn, hr]; simp; omega
  have c1 : ¬ (E.cx = E.numrows) := by omega
  have c2 : ¬ (E.cy = 0 ∧ E.cx = 0) := by omega
  have c3 : ¬ (E.cy - 1 < 0 ∨ E.cy - 1 > row.size) := by omega
  have hrow : row_at E E.cx = row := row_at_mid E A B row hr _ hx
  have hset := set_row_mid E A B row
    (editor_update_row
      { row with data := row.data.eraseIdx (E.cy - 1).toNat, size := row.size - 1 }) hr E.cx hx
  simp only [editor_delete_char, c1, c2, if_false, hcy, gt_iff_lt, if_true,
    editor_row_delete_char, hrow, c3, hset]

/-- C6: on a well-formed document with the cursor on a row, exactly one of
three cases applies to `editor_delete_char`.  At `(0, 0)` the state is
unchanged.  At column 0 of a row `r > 0` the content of row `r` is appended
to row `r - 1`, row `r` is removed and the cursor goes to `(r - 1, old length
of row r - 1)`.  Behind a byte, `c > 0`, the byte at index `c - 1` of row `r`
is removed (the row gets one byte shorter), the column is decremented and
every other row keeps its content. -/
theorem editor_delete_char_cases (E : editor_config) (hd : doc_ok E) (hc : cursor_on_row E) :
    ((E.cx = 0 ∧ E.cy = 0) ∨ (0 < E.cx ∧ E.cy = 0) ∨ 0 < E.cy) ∧
    (E.cx = 0 ∧ E.cy = 0 → editor_delete_char E = E) ∧
    (0 < E.cx ∧ E.cy = 0 →
      (editor_delete_char E).rows.map erow.data =
        (E.rows.take (E.cx - 1).toNat).map erow.data ++
          ((row_at E (E.cx - 1)).data ++ (row_at E E.cx).data) ::
            (E.rows.drop (E.cx.toNat + 1)).map erow.data ∧
      (editor_delete_char E).numrows = E.numrows - 1 ∧
      (editor_delete_char E).cx = E.cx - 1 ∧
      (editor_delete_char E).cy = ((row_at E (E.cx - 1)).data.length : Int) ∧
      doc_ok (editor_delete_char E)) ∧
    (0 < E.cy →
      (editor_delete_char E).rows.map erow.data =
        (E.rows.take E.cx.toNat).map erow.data ++
          ((row_at E E.cx).data.take (E.cy - 1).toNat ++
            (row_at E E.cx).data.drop E.cy.toNat) ::
            (E.rows.drop (E.cx.toNat + 1)).map erow.data ∧
      ((row_at (editor_delete_char E) E.cx).data.length : Int) =
        ((row_at E E.cx).data.length : Int) - 1 ∧
      (editor_delete_char E).numrows = E.numrows ∧
      (editor_delete_char E).cx = E.cx ∧
      (editor_delete_char E).cy = E.cy - 1 ∧
      doc_ok (editor_delete_char E)) := by
  obtain ⟨A, row, B, hr, hx, hrow, hA, hB, hs, h0, h1, hsA, hsB⟩ := split_at_cursor E hd hc
  have hn := hd.1
  refine ⟨by have := hc.1; omega, ?_, ?_, ?_⟩
  · rintro ⟨hx0, hy0⟩
    have c1 : ¬ (E.cx = E.numrows) := by have := hc.2.1; omega
    simp [editor_delete_char, c1, hx0, hy0]
  · rintro ⟨hxp, hy0⟩
    rcases List.eq_nil_or_concat A with hnil | ⟨A0, prev, hA0⟩
    · rw [hnil] at hx; simp at hx; omega
    have hr2 : E.rows = A0 ++ prev :: row :: B := by rw [hr, hA0]; simp
    have hx2 : E.cx = (A0.length : Int) + 1 := by rw [hx, hA0]; simp
    have hprev : row_at E (E.cx - 1) = prev :=
      row_at_mid E A0 (row :: B) prev hr2 _ (by omega)
    have hps : prev.size = (prev.data.length : Int) := hsA prev (by rw [hA0]; simp)
    have hsA0 : ∀ r ∈ A0, r.size = (r.data.length : Int) :=
      fun r h => hsA r (by rw [hA0]; simp [h])
    have t1 : (E.cx - 1).toNat = A0.length := by omega
    have hk1 : prev.size.toNat = prev.data.length := by omega
    have hk2 : row.size.toNat = row.data.length := by omega
    have hlen : E.numrows = (A0.length : Int) + 2 + (B.length : Int) := by
      rw [hn, hr2]; simp; omega
    rw [delete_char_join E A0 B prev row hr2 hx2 hn hy0, hprev, hrow, ← hB, t1]
    rw [hr2, take_mid]
    refine ⟨?_, rfl, rfl, hps, ?_, ?_⟩
    · simp [editor_update_row_data, hk1, hk2]
    · simp; omega
    · intro r hrm
      simp only [List.mem_append, List.mem_cons] at hrm
      rcases hrm with h | h | h
      · exact hsA0 r h
      · subst h
        simp only [editor_update_row_size, editor_update_row_data, hk1, hk2, List.take_length,
          List.length_append]
        omega
      · exact hsB r h
  · intro hcy
    have hle : E.cy ≤ row.size := by omega
    have hdel := delete_char_in_row E A B row hr hx hn hcy hle
    have hrow1 : row_at (editor_delete_char E) E.cx = editor_update_row
        { row with data := row.data.eraseIdx (E.cy - 1).toNat, size := row.size - 1 } := by
      rw [hdel]
      exact row_at_mid _ A B _ rfl _ hx
    have hlt : (E.cy - 1).toNat < row.data.length := by omega
    rw [hrow1, hdel, hrow, ← hA, ← hB]
    refine ⟨?_, ?_, rfl, rfl, rfl, ?_, ?_⟩
    · have t3 : E.cy.toNat - 1 + 1 = E.cy.toNat := by omega
      simp [editor_update_row_data, List.eraseIdx_eq_take_drop_succ, t3]
    · simp only [editor_update_row_data, List.length_eraseIdx_of_lt hlt]
      omega
    · simp only [List.length_append, List.length_cons]
      rw [hn, hr]; simp
    · intro r hrm
      simp only [List.mem_append, List.mem_cons] at hrm
      rcases hrm with h | h | h
      · exact hsA r h
      · subst h
        simp only [editor_update_row_size, editor_update_row_data,
          List.length_eraseIdx_of_lt hlt]
        omega
      · exact hsB r h

/-- The join case of C6 on "abc", "def", "ghi" with the cursor at (1, 0):
the rows become "abcdef", "ghi" and the cursor (0, 3). -/
theorem editor_delete_char_cases_witness :
    doc_ok join_state ∧ cursor_on_row join_state ∧
    (editor_delete_char join_state).rows.map erow.data = ["abcdef".toList, "ghi".toList] ∧
    (editor_delete_char join_state).cx = 0 ∧ (editor_delete_char join_state).cy = 3 :=
  have h := (editor_delete_char_cases join_state (by decide) (by decide)).2.2.1
    ⟨by decide, by decide⟩
  ⟨by decide, by decide, h.1, h.2.2.1, h.2.2.2.1⟩

/-- C7 as stated fails: with the cursor on the virtual row after the one row
"abc", `editor_delete_char` leaves the cursor at (1, 0); it does not move it
to the end of the last row, (0, 3). -/
theorem delete_char_past_end_keeps_cursor :
    0 < past_end_state.numrows ∧ past_end_state.cx = past_end_state.numrows ∧
    past_end_state.cy = 0 ∧
    (editor_delete_char past_end_state).cx = 1 ∧ (editor_delete_char past_end_state).cy = 0 ∧
    ¬ ((editor_delete_char past_end_state).cx = past_end_state.numrows - 1 ∧
       (editor_delete_char past_end_state).cy =
         (row_at past_end_state (past_end_state.numrows - 1)).size) := by
  decide

/-- C7, amended: with the cursor on the virtual row past the end of the
document, `cx = numrows`, `editor_delete_char` returns at its first test and
changes nothing: cursor, rows, row count and dirty counter stay as they
are. -/
theorem editor_delete_char_past_end (E : editor_config) (h : E.cx = E.numrows) :
    editor_delete_char E = E := by
  simp [editor_delete_char, h]

/-- C7 (amended) on the one line file "abc" with the cursor at (1, 0). -/
theorem editor_delete_char_past_end_witness :
    past_end_state.cx = past_end_state.numrows ∧
    editor_delete_char past_end_state = past_end_state :=
  ⟨by decide, editor_delete_char_past_end past_end_state (by decide)⟩

/-! ## Inserting -/

theorem to_char_chr (ch : Char) (h : ch.toNat < 256) : to_char (chr ch) = ch := by
  have e : ((ch.toNat : Int) % 256).toNat = ch.toNat := by omega
  rw [to_char, chr, e, Char.ofNat_toNat]

/-- The state after `editor_insert_char` with the cursor on the row `row`. -/
theorem insert_char_in_row (E : editor_config) (A B : List erow) (row : erow) (c : Int)
    (hr : E.rows = A ++ row :: B) (hx : E.cx = (A.length : Int))
    (hn : E.numrows = (E.rows.length : Int)) (h0 : 0 ≤ E.cy) (hle : E.cy ≤ row.size) :
    editor_insert_char E c =
      { E with
        rows := A ++ editor_update_row
          { row with
            data := row.data.take E.cy.toNat ++ to_char c :: row.data.drop E.cy.toNat
            size := row.size + 1 } :: B
        dirty := E.dirty + 1
        cy := E.cy + 1 } := by
  have hlen : E.numrows = (A.length : Int) + 1 + (B.length : Int) := by
    rw [hn, hr]; simp; omega
  have c1 : ¬ (E.cx = E.numrows) := by omega
  have c3 : ¬ (E.cy < 0 ∨ E.cy > row.size) := by omega
  have hrow : row_at E E.cx = row := row_at_mid E A B row hr _ hx
  have hset := fun r => set_row_mid E A B row r hr E.cx hx
  simp only [editor_insert_char, c1, if_false, editor_row_insert_char, hrow, c3, hset]

/-- The state after `editor_insert_char` with the cursor on the virtual row
after the last row. -/
theorem insert_char_past_end (E : editor_config) (c : Int)
    (hn : E.numrows = (E.rows.length : Int)) (hx : E.cx = E.numrows) (hcy : E.cy = 0) :
    editor_insert_char E c =
      { E with
        rows := E.rows ++ [editor_update_row
          { size := 0 + 1, rsize := 0, data := [to_char c], render := [] }]
        numrows := E.numrows + 1
        dirty := E.dirty + 1 + 1
        cy := 1 } := by
  have c1 : ¬ (E.numrows < 0 ∨ E.numrows > E.numrows) := by omega
  have t1 : E.numrows.toNat = E.rows.length := by omega
  have c3 : ¬ ((0 : Int) < 0 ∨ (0 : Int) > 0) := by omega
  have hrow : ∀ (r : erow) (S : editor_config), S.rows = E.rows ++ [r] →
      row_at S E.numrows = r := fun r S h => row_at_mid S E.rows [] r h _ hn
  have hset : ∀ (r r1 : erow) (S : editor_config), S.rows = E.rows ++ [r] →
      set_row S E.numrows r1 = { S with rows := E.rows ++ [r1] } :=
    fun r r1 S h => set_row_mid S E.rows [] r r1 h _ hn
  simp only [editor_insert_char, hx, if_true, editor_insert_row, c1, if_false, t1,
    List.take_length, List.drop_length, hcy, editor_row_insert_char]
  rw [hrow _ _ rfl, hset _ _ _ rfl]
  simp [editor_update_row_size, editor_update_row]

/-- C8: on a well-formed document and for a byte `ch`, `editor_insert_char`
with the cursor at `(r, c)` on a row makes row `r` its old bytes `[0, c)`,
then `ch`, then its old bytes `[c, size)`, one byte longer than before, keeps
the content of every other row and moves the cursor to `(r, c + 1)`.  With
the cursor on the virtual row after the last row, `(numrows, 0)`, the rows
are the old rows followed by a new last row that holds `ch` alone, and the
cursor is `(numrows, 1)`. -/
theorem editor_insert_char_inserts (E : editor_config) (ch : Char) (hb : ch.toNat < 256)
    (hd : doc_ok E) :
    (cursor_on_row E →
      (editor_insert_char E (chr ch)).rows.map erow.data =
        (E.rows.take E.cx.toNat).map erow.data ++
          ((row_at E E.cx).data.take E.cy.toNat ++ ch :: (row_at E E.cx).data.drop E.cy.toNat) ::
            (E.rows.drop (E.cx.toNat + 1)).map erow.data ∧
      ((row_at (editor_insert_char E (chr ch)) E.cx).data.length : Int) =
        ((row_at E E.cx).data.length : Int) + 1 ∧
      (editor_insert_char E (chr ch)).numrows = E.numrows ∧
      (editor_insert_char E (chr ch)).cx = E.cx ∧
      (editor_insert_char E (chr ch)).cy = E.cy + 1 ∧
      doc_ok (editor_insert_char E (chr ch))) ∧
    (E.cx = E.numrows ∧ E.cy = 0 →
      (editor_insert_char E (chr ch)).rows.map erow.data = E.rows.map erow.data ++ [[ch]] ∧
      (editor_insert_char E (chr ch)).numrows = E.numrows + 1 ∧
      (editor_insert_char E (chr ch)).cx = E.cx ∧
      (editor_insert_char E (chr ch)).cy = 1 ∧
      doc_ok (editor_insert_char E (chr ch))) := by
  have hn := hd.1
  have hch := to_char_chr ch hb
  constructor
  · intro hc
    obtain ⟨A, row, B, hr, hx, hrow, hA, hB, hs, h0, h1, hsA, hsB⟩ := split_at_cursor E hd hc
    have hins := insert_char_in_row E A B row (chr ch) hr hx hn h0 (by omega)
    have hrow1 : row_at (editor_insert_char E (chr ch)) E.cx = editor_update_row
        { row with
          data := row.data.take E.cy.toNat ++ to_char (chr ch) :: row.data.drop E.cy.toNat
          size := row.size + 1 } := by
      rw [hins]
      exact row_at_mid _ A B _ rfl _ hx
    have hlen : ((row.data.take E.cy.toNat ++ ch :: row.data.drop E.cy.toNat).length : Int) =
        (row.data.length : Int) + 1 := by
      simp only [List.length_append, List.length_cons, List.length_take, List.length_drop]
      omega
    rw [hrow1, hins, hrow, ← hA, ← hB, hch]
    refine ⟨?_, ?_, rfl, rfl, rfl, ?_, ?_⟩
    · simp [editor_update_row_data]
    · rw [editor_update_row_data]; exact hlen
    · simp only [List.length_append, List.length_cons]
      rw [hn, hr]; simp
    · intro r hrm
      simp only [List.mem_append, List.mem_cons] at hrm
      rcases hrm with h | h | h
      · exact hsA r h
      · subst h
        rw [editor_update_row_size, editor_update_row_data]
        simp only []
        rw [hlen]; omega
      · exact hsB r h
  · rintro ⟨hx, hcy⟩
    rw [insert_char_past_end E (chr ch) hn hx hcy, hch]
    refine ⟨?_, rfl, rfl, rfl, ?_, ?_⟩
    · simp [editor_update_row_data]
    · simp; omega
    · intro r hrm
      simp only [List.mem_append, List.mem_singleton] at hrm
      rcases hrm with h | h
      · exact hd.2 r h
      · subst h; rfl

/-- C8 on "abc", "def", "ghi" with the cursor at (1, 3): typing `x` makes
row 1 "defx" and puts the cursor at (1, 4). -/
theorem editor_insert_char_inserts_witness :
    'x'.toNat < 256 ∧ doc_ok three_lines ∧ cursor_on_row three_lines ∧
    (editor_insert_char three_lines (chr 'x')).rows.map erow.data =
      ["abc".toList, "defx".toList, "ghi".toList] ∧
    (editor_insert_char three_lines (chr 'x')).cx = 1 ∧
    (editor_insert_char three_lines (chr 'x')).cy = 4 :=
  have h := (editor_insert_char_inserts three_lines 'x' (by decide) (by decide)).1 (by decide)
  ⟨by decide, by decide, by decide, h.1, h.2.2.2.1, h.2.2.2.2.1⟩

/-! ## Split, then join -/

/-- C4: on a well-formed document with the cursor at `(r, c)` on a row,
`editor_insert_new_line` followed by `editor_delete_char` gives back the
original sequence of row contents and row sizes, the original row count and
the cursor `(r, c)`. -/
theorem split_then_join (E : editor_config) (hd : doc_ok E) (hc : cursor_on_row E) :
    (editor_delete_char (editor_insert_new_line E)).rows.map erow.data =
      E.rows.map erow.data ∧
    (editor_delete_char (editor_insert_new_line E)).rows.map erow.size =
      E.rows.map erow.size ∧
    (editor_delete_char (editor_insert_new_line E)).numrows = E.numrows ∧
    ((editor_delete_char (editor_insert_new_line E)).rows.length : Int) = E.numrows ∧
    (editor_delete_char (editor_insert_new_line E)).cx = E.cx ∧
    (editor_delete_char (editor_insert_new_line E)).cy = E.cy := by
  obtain ⟨A, row, B, hr, hx, hrow, hA, hB, hs, h0, h1, hsA, hsB⟩ := split_at_cursor E hd hc
  have hn := hd.1
  have hnl := insert_new_line_rows E A B row hr hx hn
  have hlen : (E.rows.length : Int) = (A.length : Int) + 1 + (B.length : Int) := by
    rw [hr]; simp; omega
  have hok : (editor_insert_new_line E).numrows =
      ((editor_insert_new_line E).rows.length : Int) := by
    rw [hnl]
    by_cases hcy : E.cy = 0
    · simp [hcy]; omega
    · simp [hcy]; omega
  have hk : (row.size - E.cy).toNat = (row.data.drop E.cy.toNat).length := by
    rw [List.length_drop]; omega
  have hk2 : row.size.toNat = row.data.length := by omega
  by_cases hcy : E.cy = 0
  · simp only [hcy, if_true] at hnl
    have hj := delete_char_join (editor_insert_new_line E) A B
      (editor_update_row { size := 0, rsize := 0, data := [], render := [] }) row
      (by rw [hnl]) (by rw [hnl]; simp only []; omega) hok (by rw [hnl])
    rw [hj, hnl, hr]
    refine ⟨?_, ?_, ?_, ?_, ?_, ?_⟩
    · simp [editor_update_row_data, editor_update_row_size, hk2]
    · simp [editor_update_row_size, hk2, hs]
    · simp only []; omega
    · simp only [List.length_append, List.length_cons]
      rw [hn, hlen]; push_cast; omega
    · simp only []; omega
    · simp only [editor_update_row_size]; omega
  · simp only [hcy, if_false] at hnl
    have hj := delete_char_join (editor_insert_new_line E) A B
      (editor_update_row { row with size := E.cy, data := row.data.take E.cy.toNat })
      (editor_update_row
        { size := ((row.size - E.cy).toNat : Int), rsize := 0,
          data := (row.data.drop E.cy.toNat).take (row.size - E.cy).toNat,
          render := [] })
      (by rw [hnl]) (by rw [hnl]; simp only []; omega) hok (by rw [hnl])
    have hmin : min E.cy.toNat row.data.length = E.cy.toNat := by omega
    rw [hj, hnl, hr]
    refine ⟨?_, ?_, ?_, ?_, ?_, ?_⟩
    · have hd2 : List.take (row.data.length - E.cy.toNat) (List.drop E.cy.toNat row.data) =
          List.drop E.cy.toNat row.data := by
        rw [← List.length_drop, List.take_length]
      simp [editor_update_row_data, editor_update_row_size, hk, List.take_take, hd2]
    · simp [editor_update_row_size, hk]
      omega
    · simp only []; omega
    · simp only [List.length_append, List.length_cons]
      rw [hn, hlen]; push_cast; omega
    · simp only []; omega
    · simp only [editor_update_row_size]

/-- C4 on "abc", "def", "ghi" with the cursor at (1, 3): Enter and then
Backspace give back the three rows and the cursor (1, 3). -/
theorem split_then_join_witness :
    doc_ok three_lines ∧ cursor_on_row three_lines ∧
    (editor_delete_char (editor_insert_new_line three_lines)).rows.map erow.data =
      ["abc".toList, "def".toList, "ghi".toList] ∧
    (editor_delete_char (editor_insert_new_line three_lines)).cx = 1 ∧
    (editor_delete_char (editor_insert_new_line three_lines)).cy = 3 :=
  have h := split_then_join three_lines (by decide) (by decide)
  ⟨by decide, by decide, h.1, h.2.2.2.2.1, h.2.2.2.2.2⟩

/-! ## Tab expansion -/

theorem foldl_range_getD {α β : Type} (f : β → α → β) (d : α) (l : List α) (init : β) :
    ∀ n, n ≤ l.length →
      (List.range n).foldl (fun acc j => f acc (l.getD j d)) init = (l.take n).foldl f init := by
  intro n
  induction n with
  | zero => intro _; simp
  | succ n ih =>
    intro h
    have hlt : n < l.length := by omega
    rw [List.range_succ, List.foldl_append, ih (by omega), List.take_succ, List.foldl_append]
    simp [List.getD_eq_getElem?_getD, List.getElem?_eq_getElem hlt]

/-- The inner loop of `editor_update_row` stops within its fuel, at the next
multiple of the tab stop. -/
theorem update_row_pad_eq (fuel : Nat) : ∀ render : List Char,
    (8 - render.length % 8) % 8 ≤ fuel →
    update_row_pad fuel render =
      render ++ List.replicate ((8 - render.length % 8) % 8) ' ' := by
  induction fuel with
  | zero =>
    intro render h
    have h0 : (8 - render.length % 8) % 8 = 0 := by omega
    simp [update_row_pad, h0]
  | succ fuel ih =>
    intro render h
    by_cases hz : render.length % 8 = 0
    · have hc : ¬ ((render.length : Int) % PICO_TAB_STOP ≠ 0) := by
        simp only [PICO_TAB_STOP]; omega
      have h0 : (8 - render.length % 8) % 8 = 0 := by omega
      simp [update_row_pad, hc, h0]
    · have hc : (render.length : Int) % PICO_TAB_STOP ≠ 0 := by
        simp only [PICO_TAB_STOP]; omega
      have hl : (render ++ [' ']).length = render.length + 1 := by simp
      have hk : (8 - render.length % 8) % 8 = (8 - (render.length + 1) % 8) % 8 + 1 := by omega
      rw [update_row_pad, if_pos hc, ih (render ++ [' ']) (by rw [hl]; omega), hl, hk,
        List.replicate_succ]
      simp

theorem render_step_tab (render : List Char) :
    render_step render '\t' = render ++ List.replicate (tab_width render.length) ' ' := by
  have hl : (render ++ [' ']).length = render.length + 1 := by simp
  have hk : tab_width render.length = (8 - (render.length + 1) % 8) % 8 + 1 := by
    unfold tab_width; omega
  have h8 : PICO_TAB_STOP.toNat = 8 := by decide
  rw [render_step, if_pos rfl, h8, update_row_pad_eq 8 _ (by omega), hl, hk, List.replicate_succ]
  simp

theorem render_step_other (render : List Char) (ch : Char) (h : ch ≠ '\t') :
    render_step render ch = render ++ [ch] := by
  rw [render_step, if_neg h]

theorem foldl_render_step (l : List Char) : ∀ acc : List Char,
    l.foldl render_step acc = acc ++ tab_expansion_from acc.length l := by
  induction l with
  | nil => intro acc; simp [tab_expansion_from]
  | cons ch rest ih =>
    intro acc
    by_cases h : ch = '\t'
    · subst h
      rw [List.foldl_cons, render_step_tab, ih]
      simp [tab_expansion_from]
    · rw [List.foldl_cons, render_step_other _ _ h, ih]
      simp [tab_expansion_from, h]

theorem foldl_ry_step (l : List Char) : ∀ acc : List Char,
    l.foldl ry_step (acc.length : Int) = ((l.foldl render_step acc).length : Int) := by
  induction l with
  | nil => intro acc; rfl
  | cons ch rest ih =>
    intro acc
    by_cases h : ch = '\t'
    · subst h
      have e : ry_step (acc.length : Int) '\t' =
          ((acc ++ List.replicate (tab_width acc.length) ' ').length : Int) := by
        simp only [ry_step, PICO_TAB_STOP, if_true, List.length_append, List.length_replicate,
          tab_width]
        omega
      rw [List.foldl_cons, List.foldl_cons, render_step_tab, e, ih]
    · have e : ry_step (acc.length : Int) ch = ((acc ++ [ch]).length : Int) := by
        simp [ry_step, h]
      rw [List.foldl_cons, List.foldl_cons, render_step_other _ _ h, e, ih]

/-- The render `editor_update_row` builds, for a row whose `size` does not
exceed its stored bytes. -/
theorem editor_update_row_render (row : erow) (h : row.size.toNat ≤ row.data.length) :
    (editor_update_row row).render = tab_expansion (row.data.take row.size.toNat) := by
  have e : (List.range row.size.toNat).foldl (update_row_step row) [] =
      (List.range row.size.toNat).foldl
        (fun acc j => render_step acc (row.data.getD j (Char.ofNat 0))) [] := rfl
  rw [editor_update_row]
  simp only []
  rw [e, foldl_range_getD render_step _ _ _ _ h, foldl_render_step]
  rfl

/-- The value of `editor_row_cy_to_ry` is the length of the expansion of the
bytes before the column. -/
theorem editor_row_cy_to_ry_eq (row : erow) (cy : Int) (h : cy.toNat ≤ row.data.length) :
    editor_row_cy_to_ry row cy = ((tab_expansion (row.data.take cy.toNat)).length : Int) := by
  have e : (List.range cy.toNat).foldl (cy_to_ry_step row) 0 =
      (List.range cy.toNat).foldl
        (fun acc j => ry_step acc (row.data.getD j (Char.ofNat 0))) 0 := rfl
  rw [editor_row_cy_to_ry, e, foldl_range_getD ry_step _ _ _ _ h]
  have h2 := foldl_ry_step (row.data.take cy.toNat) []
  rw [foldl_render_step] at h2
  exact h2

theorem tab_expansion_eq_foldl (l : List Char) : tab_expansion l = l.foldl render_step [] := by
  rw [foldl_render_step]; rfl

theorem tab_expansion_concat (l : List Char) (ch : Char) :
    tab_expansion (l ++ [ch]) = tab_expansion l ++
      (if ch = '\t' then List.replicate (tab_width (tab_expansion l).length) ' ' else [ch]) := by
  rw [tab_expansion_eq_foldl, tab_expansion_eq_foldl, List.foldl_concat]
  by_cases h : ch = '\t'
  · subst h; rw [render_step_tab, if_pos rfl]
  · rw [render_step_other _ _ h, if_neg h]

theorem tab_free_expansion_from (l : List Char) : ∀ col : Nat,
    '\t' ∉ tab_expansion_from col l := by
  induction l with
  | nil => intro col; simp [tab_expansion_from]
  | cons ch rest ih =>
    intro col
    by_cases h : ch = '\t'
    · subst h
      simp only [tab_expansion_from, if_true, List.mem_append, not_or]
      refine ⟨?_, ih _⟩
      intro hm
      have := (List.mem_replicate.1 hm).2
      exact absurd this (by decide)
    · simp only [tab_expansion_from, if_neg h, List.mem_cons, not_or]
      exact ⟨fun e => h e.symm, ih _⟩

/-- C9: for a row whose `size` is the length of its data,
`editor_update_row` sets `render` to the left-to-right tab expansion of
`data`: a byte that is not a tab is copied, a tab becomes `tab_width col`
spaces, where `col` is the length rendered so far and `tab_width col` is the
one number `k` of `1..8` for which `col + k` is a multiple of 8.  The render
holds no tab, `rsize` is its length, and `rsize` is
`editor_row_cy_to_ry (row, size)`.  `data` and `size` are left alone. -/
theorem editor_update_row_expands (row : erow) (h : row.size = (row.data.length : Int)) :
    (editor_update_row row).render = tab_expansion row.data ∧
    (∀ (l : List Char) (ch : Char), tab_expansion (l ++ [ch]) = tab_expansion l ++
      (if ch = '\t' then List.replicate (tab_width (tab_expansion l).length) ' ' else [ch])) ∧
    tab_expansion [] = [] ∧
    (∀ col k : Nat, (1 ≤ k ∧ k ≤ 8 ∧ (col + k) % 8 = 0) ↔ k = tab_width col) ∧
    '\t' ∉ (editor_update_row row).render ∧
    (editor_update_row row).rsize = ((editor_update_row row).render.length : Int) ∧
    (editor_update_row row).rsize = editor_row_cy_to_ry row row.size ∧
    (editor_update_row row).data = row.data ∧ (editor_update_row row).size = row.size := by
  have hk : row.size.toNat = row.data.length := by omega
  have hr : (editor_update_row row).render = tab_expansion row.data := by
    rw [editor_update_row_render row (by omega), hk, List.take_length]
  refine ⟨hr, tab_expansion_concat, rfl, ?_, ?_, rfl, ?_, rfl, rfl⟩
  · intro col k
    unfold tab_width
    omega
  · rw [hr]; exact tab_free_expansion_from _ _
  · have e : (editor_update_row row).rsize = ((editor_update_row row).render.length : Int) := rfl
    rw [e, hr, editor_row_cy_to_ry_eq row row.size (by omega), hk, List.take_length]

/-- The end-to-end example of C9: "a\tb" renders to `a`, seven spaces, `b`,
and the rendered column of raw column 2 is 8. -/
theorem editor_update_row_expands_witness :
    tab_row.size = (tab_row.data.length : Int) ∧
    (editor_update_row tab_row).render = "a       b".toList ∧
    (editor_update_row tab_row).rsize = 9 ∧
    editor_row_cy_to_ry (editor_update_row tab_row) 2 = 8 :=
  have h := editor_update_row_expands tab_row (by decide)
  ⟨by decide, h.1, by decide, by decide⟩

/-! ## The length of a render -/

theorem tab_expansion_length_concat (l : List Char) (ch : Char) :
    (tab_expansion (l ++ [ch])).length = (tab_expansion l).length +
      (if ch = '\t' then tab_width (tab_expansion l).length else 1) := by
  rw [tab_expansion_concat]
  by_cases h : ch = '\t'
  · simp [h]
  · simp [h]

theorem tab_expansion_length_ge (l : List Char) : l.length ≤ (tab_expansion l).length := by
  induction l using List.reverseRecOn with
  | nil => simp [tab_expansion, tab_expansion_from]
  | append_singleton l ch ih =>
    rw [tab_expansion_length_concat, List.length_append, List.length_singleton]
    have hw : 1 ≤ tab_width (tab_expansion l).length := by unfold tab_width; omega
    split_ifs <;> omega

/-- A render is as long as its data exactly when every tab of the data
stands at a rendered column that is 7 modulo 8. -/
theorem tab_expansion_length_eq_iff (l : List Char) :
    (tab_expansion l).length = l.length ↔
      ∀ j : Nat, j < l.length → l.getD j (Char.ofNat 0) = '\t' →
        (tab_expansion (l.take j)).length % 8 = 7 := by
  induction l using List.reverseRecOn with
  | nil => simp [tab_expansion, tab_expansion_from]
  | append_singleton l ch ih =>
    have hge := tab_expansion_length_ge l
    have hw : 1 ≤ tab_width (tab_expansion l).length := by unfold tab_width; omega
    have hlast : (l ++ [ch]).getD l.length (Char.ofNat 0) = ch := by
      rw [List.getD_append_right _ _ _ _ (le_refl _)]; simp
    have htake : (l ++ [ch]).take l.length = l := by simp
    rw [tab_expansion_length_concat, List.length_append, List.length_singleton]
    constructor
    · intro heq j hj hjt
      by_cases hjl : j < l.length
      · rw [List.getD_append _ _ _ _ hjl] at hjt
        rw [List.take_append_of_le_length (by omega)]
        refine ih.1 ?_ j hjl hjt
        split_ifs at heq <;> omega
      · have hje : j = l.length := by omega
        subst hje
        rw [hlast] at hjt
        rw [htake]
        rw [if_pos hjt] at heq
        unfold tab_width at heq
        omega
    · intro hall
      have hl : (tab_expansion l).length = l.length := by
        refine ih.2 ?_
        intro j hj hjt
        have h1 := hall j (by omega) (by rw [List.getD_append _ _ _ _ hj]; exact hjt)
        rw [List.take_append_of_le_length (by omega)] at h1
        exact h1
      by_cases hc : ch = '\t'
      · have h1 := hall l.length (by omega) (by rw [hlast]; exact hc)
        rw [htake] at h1
        rw [if_pos hc]
        unfold tab_width
        omega
      · rw [if_neg hc]; omega

theorem tab_expansion_tab_free (l : List Char) (h : '\t' ∉ l) : tab_expansion l = l := by
  induction l using List.reverseRecOn with
  | nil => rfl
  | append_singleton l ch ih =>
    have h1 : '\t' ∉ l := fun hm => h (by simp [hm])
    have h2 : ch ≠ '\t' := fun e => h (by simp [e])
    rw [tab_expansion_concat, ih h1, if_neg h2]

/-- C10 as stated fails: the row "abcdefg\t" holds a tab, and its render
`abcdefg` followed by one space is exactly as long as its data, 8 bytes; so
`rsize = size` does not imply that the row has no tab. -/
theorem rsize_eq_size_with_tab :
    tab_at_seven.size = (tab_at_seven.data.length : Int) ∧
    (editor_update_row tab_at_seven).render = "abcdefg ".toList ∧
    (editor_update_row tab_at_seven).rsize = tab_at_seven.size ∧
    '\t' ∈ tab_at_seven.data ∧
    ¬ ((editor_update_row tab_at_seven).rsize = tab_at_seven.size ↔
        '\t' ∉ tab_at_seven.data) := by
  decide

/-- C10, amended: for a row whose `size` is the length of its data, the
`rsize` computed by `editor_update_row` is at least `size`; it equals `size`
when the row holds no tab; and it equals `size` exactly when every tab of the
row stands at a rendered column that is 7 modulo 8 (where it takes one
space). -/
theorem editor_update_row_rsize (row : erow) (h : row.size = (row.data.length : Int)) :
    row.size ≤ (editor_update_row row).rsize ∧
    ('\t' ∉ row.data → (editor_update_row row).rsize = row.size) ∧
    ((editor_update_row row).rsize = row.size ↔
      ∀ j : Nat, j < row.data.length → data_at row j = '\t' →
        editor_row_cy_to_ry row (j : Int) % 8 = 7) := by
  have hk : row.size.toNat = row.data.length := by omega
  have hr : (editor_update_row row).rsize = ((tab_expansion row.data).length : Int) := by
    have e : (editor_update_row row).rsize = ((editor_update_row row).render.length : Int) := rfl
    rw [e, editor_update_row_render row (by omega), hk, List.take_length]
  have hge := tab_expansion_length_ge row.data
  refine ⟨by omega, ?_, ?_⟩
  · intro hnt
    rw [hr, tab_expansion_tab_free _ hnt]; omega
  · have hiff := tab_expansion_length_eq_iff row.data
    rw [hr, h]
    constructor
    · intro heq j hj hjt
      have h1 := hiff.1 (by omega) j hj hjt
      rw [editor_row_cy_to_ry_eq row (j : Int) (by simp; omega)]
      simp only [Int.toNat_ofNat]
      omega
    · intro hall
      have h1 : (tab_expansion row.data).length = row.data.length := by
        refine hiff.2 ?_
        intro j hj hjt
        have h2 := hall j hj hjt
        rw [editor_row_cy_to_ry_eq row (j : Int) (by simp; omega)] at h2
        simp only [Int.toNat_ofNat] at h2
        omega
      omega

/-- C10 (amended) on the row "abcdefg\t": its `rsize` is at least its
`size`, and here the two are equal although the row holds a tab. -/
theorem editor_update_row_rsize_witness :
    tab_at_seven.size = (tab_at_seven.data.length : Int) ∧
    tab_at_seven.size ≤ (editor_update_row tab_at_seven).rsize ∧
    ((editor_update_row tab_at_seven).rsize = tab_at_seven.size ↔
      ∀ j : Nat, j < tab_at_seven.data.length → data_at tab_at_seven j = '\t' →
        editor_row_cy_to_ry tab_at_seven (j : Int) % 8 = 7) :=
  have h := editor_update_row_rsize tab_at_seven (by decide)
  ⟨by decide, h.1, h.2.2⟩

/-! ## Raw column and rendered column -/

theorem cy_to_ry_succ (row : erow) (k : Nat) :
    editor_row_cy_to_ry row ((k : Int) + 1) =
      cy_to_ry_step row (editor_row_cy_to_ry row (k : Int)) k := by
  have e : ((k : Int) + 1).toNat = k + 1 := by omega
  simp only [editor_row_cy_to_ry, e, Int.toNat_ofNat, List.range_succ, List.foldl_append,
    List.foldl_cons, List.foldl_nil]

/-- One byte takes between 1 and 8 rendered columns. -/
theorem cy_to_ry_step_bounds (row : erow) (ry : Int) (j : Nat) :
    ry + 1 ≤ cy_to_ry_step row ry j ∧ cy_to_ry_step row ry j ≤ ry + 8 := by
  unfold cy_to_ry_step PICO_TAB_STOP
  split_ifs <;> omega

theorem cy_to_ry_zero (row : erow) : editor_row_cy_to_ry row 0 = 0 := rfl

/-- The rendered column grows by at least one with every raw column. -/
theorem cy_to_ry_grows (row : erow) (k : Nat) : ∀ d : Nat,
    editor_row_cy_to_ry row (k : Int) + (d : Int) ≤ editor_row_cy_to_ry row ((k + d : Nat) : Int) := by
  intro d
  induction d with
  | zero => simp
  | succ d ih =>
    have e : ((k + (d + 1) : Nat) : Int) = ((k + d : Nat) : Int) + 1 := by push_cast; omega
    rw [e, cy_to_ry_succ]
    have := (cy_to_ry_step_bounds row (editor_row_cy_to_ry row ((k + d : Nat) : Int)) (k + d)).1
    push_cast at *
    omega

theorem cy_to_ry_grows_int (row : erow) (c1 c2 : Int) (h0 : 0 ≤ c1) (h : c1 ≤ c2) :
    editor_row_cy_to_ry row c1 + (c2 - c1) ≤ editor_row_cy_to_ry row c2 := by
  have h1 := cy_to_ry_grows row c1.toNat (c2 - c1).toNat
  have e1 : (c1.toNat : Int) = c1 := by omega
  have e2 : ((c1.toNat + (c2 - c1).toNat : Nat) : Int) = c2 := by omega
  have e3 : ((c2 - c1).toNat : Int) = c2 - c1 := by omega
  rw [e1, e2, e3] at h1
  exact h1

theorem cy_to_ry_neg (row : erow) (c : Int) (h : c ≤ 0) : editor_row_cy_to_ry row c = 0 := by
  have e : c.toNat = 0 := by omega
  simp [editor_row_cy_to_ry, e]

/-- C12: `editor_row_cy_to_ry` is monotonically non-decreasing in its column
argument: for raw columns `c1 ≤ c2` (in particular for `0 ≤ c1 ≤ c2 ≤ size`)
the rendered column of `c1` is at most that of `c2`. -/
theorem editor_row_cy_to_ry_mono (row : erow) (c1 c2 : Int) (h : c1 ≤ c2) :
    editor_row_cy_to_ry row c1 ≤ editor_row_cy_to_ry row c2 := by
  by_cases h0 : 0 ≤ c1
  · have := cy_to_ry_grows_int row c1 c2 h0 h
    omega
  · rw [cy_to_ry_neg row c1 (by omega)]
    by_cases h2 : 0 ≤ c2
    · have := cy_to_ry_grows_int row 0 c2 (le_refl 0) h2
      rw [cy_to_ry_zero] at this
      omega
    · rw [cy_to_ry_neg row c2 (by omega)]

/-- C12 on the row "a\tb": the rendered columns of the raw columns 1 and 2
are 1 and 8. -/
theorem editor_row_cy_to_ry_mono_witness :
    (1 : Int) ≤ 2 ∧ editor_row_cy_to_ry tab_row 1 = 1 ∧ editor_row_cy_to_ry tab_row 2 = 8 ∧
    editor_row_cy_to_ry tab_row 1 ≤ editor_row_cy_to_ry tab_row 2 :=
  ⟨by decide, by decide, by decide, editor_row_cy_to_ry_mono tab_row 1 2 (by decide)⟩

/-- What the loop of `editor_row_ry_to_cy` returns when started at the index
`cy` with the rendered width of the bytes before `cy`: the first index from
`cy` on whose byte ends beyond `ry`, or the index where the fuel ends. -/
theorem ry_to_cy_loop_spec (row : erow) (ry : Int) : ∀ (fuel cy : Nat),
    cy ≤ ry_to_cy_loop row ry fuel cy (editor_row_cy_to_ry row (cy : Int)) ∧
    ry_to_cy_loop row ry fuel cy (editor_row_cy_to_ry row (cy : Int)) ≤ cy + fuel ∧
    (∀ j : Nat, cy ≤ j → j < ry_to_cy_loop row ry fuel cy (editor_row_cy_to_ry row (cy : Int)) →
      editor_row_cy_to_ry row ((j : Int) + 1) ≤ ry) ∧
    (ry_to_cy_loop row ry fuel cy (editor_row_cy_to_ry row (cy : Int)) < cy + fuel →
      ry < editor_row_cy_to_ry row
        ((ry_to_cy_loop row ry fuel cy (editor_row_cy_to_ry row (cy : Int)) : Int) + 1)) := by
  intro fuel
  induction fuel with
  | zero =>
    intro cy
    simp only [ry_to_cy_loop]
    refine ⟨le_refl _, le_refl _, ?_, ?_⟩
    · intro j h1 h2; omega
    · intro h; omega
  | succ fuel ih =>
    intro cy
    rw [ry_to_cy_loop, ← cy_to_ry_succ]
    by_cases hgt : editor_row_cy_to_ry row ((cy : Int) + 1) > ry
    · rw [if_pos hgt]
      refine ⟨le_refl _, by omega, ?_, ?_⟩
      · intro j h1 h2; omega
      · intro _; exact hgt
    · rw [if_neg hgt]
      have e : ((cy : Int) + 1) = ((cy + 1 : Nat) : Int) := by push_cast; rfl
      rw [e]
      obtain ⟨i1, i2, i3, i4⟩ := ih (cy + 1)
      refine ⟨by omega, by omega, ?_, ?_⟩
      · intro j h1 h2
        by_cases hj : j = cy
        · subst hj; omega
        · exact i3 j (by omega) h2
      · intro h
        exact i4 (by omega)

/-- The value of `editor_row_ry_to_cy` for a row of non-negative size. -/
theorem ry_to_cy_spec (row : erow) (ry : Int) (hs : 0 ≤ row.size) :
    0 ≤ editor_row_ry_to_cy row ry ∧ editor_row_ry_to_cy row ry ≤ row.size ∧
    (∀ c : Int, 0 ≤ c → c < editor_row_ry_to_cy row ry →
      editor_row_cy_to_ry row (c + 1) ≤ ry) ∧
    (editor_row_ry_to_cy row ry < row.size →
      ry < editor_row_cy_to_ry row (editor_row_ry_to_cy row ry + 1)) := by
  obtain ⟨i1, i2, i3, i4⟩ := ry_to_cy_loop_spec row ry row.size.toNat 0
  have e0 : editor_row_cy_to_ry row ((0 : Nat) : Int) = 0 := rfl
  rw [e0] at i1 i2 i3 i4
  unfold editor_row_ry_to_cy
  refine ⟨by omega, by omega, ?_, ?_⟩
  · intro c h0 h1
    have := i3 c.toNat (by omega) (by omega)
    have e : ((c.toNat : Nat) : Int) = c := by omega
    rw [e] at this
    exact this
  · intro h
    exact i4 (by omega)

/-- C13: for a row of non-negative size and a rendered column `ry ≥ 0`,
`editor_row_ry_to_cy` returns an index `r` of `[0, size]` such that every
raw index `c < r` has `editor_row_cy_to_ry (c + 1) ≤ ry` and, when
`r < size`, `editor_row_cy_to_ry (r + 1) > ry`: the first raw index whose
byte ends beyond `ry`.  It returns `size` when `ry` is at or beyond the
rendered width of the row.  Hence `editor_row_cy_to_ry (r) ≤ ry`, and every
rendered column inside the expansion of the byte at raw index `t` (a tab in
particular) maps to `t`. -/
theorem editor_row_ry_to_cy_first (row : erow) (ry : Int) (hs : 0 ≤ row.size)
    (hry : 0 ≤ ry) :
    0 ≤ editor_row_ry_to_cy row ry ∧ editor_row_ry_to_cy row ry ≤ row.size ∧
    (∀ c : Int, 0 ≤ c → c < editor_row_ry_to_cy row ry →
      editor_row_cy_to_ry row (c + 1) ≤ ry) ∧
    (editor_row_ry_to_cy row ry < row.size →
      ry < editor_row_cy_to_ry row (editor_row_ry_to_cy row ry + 1)) ∧
    (editor_row_cy_to_ry row row.size ≤ ry → editor_row_ry_to_cy row ry = row.size) ∧
    editor_row_cy_to_ry row (editor_row_ry_to_cy row ry) ≤ ry ∧
    (∀ t : Int, 0 ≤ t → t < row.size → editor_row_cy_to_ry row t ≤ ry →
      ry < editor_row_cy_to_ry row (t + 1) → editor_row_ry_to_cy row ry = t) := by
  obtain ⟨s1, s2, s3, s4⟩ := ry_to_cy_spec row ry hs
  refine ⟨s1, s2, s3, s4, ?_, ?_, ?_⟩
  · intro hw
    by_contra hne
    have hlt : editor_row_ry_to_cy row ry < row.size := by omega
    have h1 := s4 hlt
    have h2 := cy_to_ry_grows_int row (editor_row_ry_to_cy row ry + 1) row.size
      (by omega) (by omega)
    omega
  · by_cases hz : editor_row_ry_to_cy row ry = 0
    · rw [hz, cy_to_ry_zero]; exact hry
    · have := s3 (editor_row_ry_to_cy row ry - 1) (by omega) (by omega)
      simpa using this
  · intro t ht0 ht1 hlo hhi
    by_contra hne
    rcases lt_or_gt_of_ne hne with hlt | hgt
    · have h1 := s4 (by omega)
      have h2 := cy_to_ry_grows_int row (editor_row_ry_to_cy row ry + 1) t
        (by omega) (by omega)
      omega
    · have h1 := s3 t ht0 hgt
      omega

/-- C13 on "a\tb": the rendered column 3 lies inside the tab, it maps to the
raw index 1 of the tab, whose rendered column 1 is less than 3. -/
theorem editor_row_ry_to_cy_first_witness :
    0 ≤ tab_row.size ∧ (0 : Int) ≤ 3 ∧ editor_row_ry_to_cy tab_row 3 = 1 ∧
    editor_row_cy_to_ry tab_row 1 = 1 ∧
    editor_row_cy_to_ry tab_row (editor_row_ry_to_cy tab_row 3) ≤ 3 :=
  ⟨by decide, by decide, by decide, by decide,
    (editor_row_ry_to_cy_first tab_row 3 (by decide) (by decide)).2.2.2.2.2.1⟩

/-- C11: for a row of non-negative size and a raw column `c` of `[0, size]`,
`editor_row_ry_to_cy (editor_row_cy_to_ry (c))` is `c` itself, whatever the
bytes at or before `c` are (tabs included); so it is `≥ c`, and `c` is the
first raw index whose rendered column reaches that of `c`. -/
theorem editor_row_round_trip (row : erow) (c : Int) (h0 : 0 ≤ c) (hc : c ≤ row.size) :
    c ≤ editor_row_ry_to_cy row (editor_row_cy_to_ry row c) ∧
    editor_row_ry_to_cy row (editor_row_cy_to_ry row c) = c ∧
    (∀ j : Int, 0 ≤ j → editor_row_cy_to_ry row c ≤ editor_row_cy_to_ry row j → c ≤ j) := by
  obtain ⟨s1, s2, s3, s4⟩ := ry_to_cy_spec row (editor_row_cy_to_ry row c) (by omega)
  have heq : editor_row_ry_to_cy row (editor_row_cy_to_ry row c) = c := by
    by_contra hne
    rcases lt_or_gt_of_ne hne with hlt | hgt
    · have h1 := s4 (by omega)
      have h2 := cy_to_ry_grows_int row
        (editor_row_ry_to_cy row (editor_row_cy_to_ry row c) + 1) c (by omega) (by omega)
      omega
    · have h1 := s3 c h0 hgt
      have h2 := cy_to_ry_grows_int row c (c + 1) h0 (by omega)
      omega
  refine ⟨by omega, heq, ?_⟩
  intro j hj hle
  by_contra hlt
  have h2 := cy_to_ry_grows_int row j c hj (by omega)
  omega

/-- C11 on "a\tb": the raw column 2, just behind the tab, has the rendered
column 8, which maps back to 2. -/
theorem editor_row_round_trip_witness :
    (0 : Int) ≤ 2 ∧ 2 ≤ tab_row.size ∧ editor_row_cy_to_ry tab_row 2 = 8 ∧
    editor_row_ry_to_cy tab_row (editor_row_cy_to_ry tab_row 2) = 2 :=
  ⟨by decide, by decide, by decide,
    (editor_row_round_trip tab_row 2 (by decide) (by decide)).2.1⟩

/-! ## Scrolling twice -/

/-- The three fields `editor_scroll` computes. -/
theorem editor_scroll_fields (E : editor_config) :
    editor_scroll E =
      { E with
        ry := if E.cx < E.numrows then editor_row_cy_to_ry (row_at E E.cx) E.cy else E.cy
        rowoff :=
          if E.cx ≥ (if E.cx < E.rowoff then E.cx else E.rowoff) + E.screenrows then
            E.cx - E.screenrows + 1
          else (if E.cx < E.rowoff then E.cx else E.rowoff)
        coloff :=
          if E.cy ≥ (if (if E.cx < E.numrows then editor_row_cy_to_ry (row_at E E.cx) E.cy
              else E.cy) < E.coloff then
                (if E.cx < E.numrows then editor_row_cy_to_ry (row_at E E.cx) E.cy else E.cy)
              else E.coloff) + E.screencols then
            E.cy - E.screencols + 1
          else (if (if E.cx < E.numrows then editor_row_cy_to_ry (row_at E E.cx) E.cy
              else E.cy) < E.coloff then
                (if E.cx < E.numrows then editor_row_cy_to_ry (row_at E E.cx) E.cy else E.cy)
              else E.coloff) } := by
  have hrow : ∀ v : Int, row_at { E with ry := v } E.cx = row_at E E.cx := fun _ => rfl
  unfold editor_scroll
  dsimp only
  simp only [hrow]
  split_ifs <;> rfl

/-- C20: for a state with `cy ≥ 0` (any valid cursor), `screenrows ≥ 1` and
`screencols ≥ 1`, `editor_scroll` applied twice gives the same state, and so
the same `rowoff`, `coloff` and `ry`, as applied once.  When the cursor row
is inside the row window and the rendered column that `editor_scroll`
computes is inside the column window, `rowoff` and `coloff` are left
unchanged. -/
theorem editor_scroll_idempotent (E : editor_config) (hcy : 0 ≤ E.cy)
    (hr : 1 ≤ E.screenrows) (hc : 1 ≤ E.screencols) :
    editor_scroll (editor_scroll E) = editor_scroll E ∧
    (editor_scroll (editor_scroll E)).rowoff = (editor_scroll E).rowoff ∧
    (editor_scroll (editor_scroll E)).coloff = (editor_scroll E).coloff ∧
    (editor_scroll (editor_scroll E)).ry = (editor_scroll E).ry ∧
    (E.rowoff ≤ E.cx → E.cx < E.rowoff + E.screenrows →
      E.coloff ≤ (editor_scroll E).ry → (editor_scroll E).ry < E.coloff + E.screencols →
      (editor_scroll E).rowoff = E.rowoff ∧ (editor_scroll E).coloff = E.coloff) := by
  have hge : E.cy ≤ editor_row_cy_to_ry (row_at E E.cx) E.cy := by
    have := cy_to_ry_grows_int (row_at E E.cx) 0 E.cy (le_refl 0) hcy
    rw [cy_to_ry_zero] at this
    omega
  have hidem : editor_scroll (editor_scroll E) = editor_scroll E := by
    rw [editor_scroll_fields (editor_scroll E), editor_scroll_fields E]
    dsimp only
    have hrow : ∀ a b c : Int,
        row_at { E with ry := a, rowoff := b, coloff := c } E.cx = row_at E E.cx :=
      fun _ _ _ => rfl
    simp only [hrow]
    generalize editor_row_cy_to_ry (row_at E E.cx) E.cy = w at hge ⊢
    congr 1
    · split_ifs <;> omega
    · split_ifs <;> omega
  refine ⟨hidem, by rw [hidem], by rw [hidem], by rw [hidem], ?_⟩
  intro h1 h2
  rw [editor_scroll_fields E]
  dsimp only
  generalize editor_row_cy_to_ry (row_at E E.cx) E.cy = w at hge ⊢
  intro h3 h4
  constructor
  · split_ifs <;> omega
  · split_ifs at h3 h4 ⊢ <;> omega

/-- C20 on the three line file with two screen rows and the cursor on the
last line: the first `editor_scroll` raises `rowoff` to 1, the second changes
nothing. -/
theorem editor_scroll_idempotent_witness :
    0 ≤ scroll_state.cy ∧ 1 ≤ scroll_state.screenrows ∧ 1 ≤ scroll_state.screencols ∧
    (editor_scroll scroll_state).rowoff = 1 ∧
    editor_scroll (editor_scroll scroll_state) = editor_scroll scroll_state :=
  ⟨by decide, by decide, by decide, by decide,
    (editor_scroll_idempotent scroll_state (by decide) (by decide) (by decide)).1⟩

/-! ## Key decoding -/

theorem digit_is_no_letter (c : Char) (h : c ≥ '0' ∧ c ≤ '9') :
    c ≠ 'A' ∧ c ≠ 'B' ∧ c ≠ 'C' ∧ c ≠ 'D' ∧ c ≠ 'H' ∧ c ≠ 'F' := by
  refine ⟨?_, ?_, ?_, ?_, ?_, ?_⟩ <;> (rintro rfl; revert h; decide)

theorem no_digit_is_no_key (c : Char) (h : ¬ (c ≥ '0' ∧ c ≤ '9')) :
    c ≠ '1' ∧ c ≠ '3' ∧ c ≠ '4' ∧ c ≠ '5' ∧ c ≠ '6' ∧ c ≠ '7' ∧ c ≠ '8' := by
  refine ⟨?_, ?_, ?_, ?_, ?_, ?_, ?_⟩ <;> (rintro rfl; revert h; decide)

/-- After an escape byte and the two bytes `a`, `b`, the decoder returns the
entry of the table. -/
theorem read_key_escape_two (a b : Char) (r2 : List (Option Char)) :
    (read_key_escape (some a :: some b :: r2)).1 =
      escape_table (some a) (some b) (r2.getD 0 none) := by
  simp only [read_key_escape, read_byte]
  by_cases ha : a = '['
  · subst ha
    by_cases hd : b ≥ '0' ∧ b ≤ '9'
    · obtain ⟨hA, hB, hC, hD, hH, hF⟩ := digit_is_no_letter b hd
      have hl : read_key_letter b = chr '\x1b' := by
        simp [read_key_letter, hA, hB, hC, hD, hH, hF]
      simp only [if_true, hd, and_self]
      rcases r2 with _ | ⟨_ | c, tl⟩
      · simp [read_byte, escape_table, hA, hB, hC, hD, hH, hF]
      · simp [read_byte, escape_table, hA, hB, hC, hD, hH, hF]
      · simp only [read_byte, List.getD_cons_zero]
        by_cases hc : c = '~'
        · subst hc
          simp only [if_true, read_key_digit, escape_table, hA, hB, hC, hD, hH, hF,
            Option.some.injEq, true_and, and_true, false_and, and_false, if_false]
          split_ifs <;> simp_all
        · simp [hc, hl, escape_table, hA, hB, hC, hD, hH, hF]
    · obtain ⟨h1, h3, h4, h5, h6, h7, h8⟩ := no_digit_is_no_key b hd
      simp only [if_true, hd, if_false, read_key_letter, escape_table, h1, h3, h4, h5, h6, h7, h8,
        Option.some.injEq, true_and, false_and, and_false, if_false]
      split_ifs <;> simp_all
  · by_cases hO : a = 'O'
    · subst hO
      simp only [escape_table, Option.some.injEq, true_and, false_and, and_false, if_false]
      simp only [show ¬ ('O' : Char) = '[' by decide, if_false, false_and, if_true]
      split_ifs <;> simp_all
    · simp [escape_table, ha, hO]

/-- After an escape byte the decoder returns the entry of the table for the
results of the next three reads. -/
theorem read_key_escape_value (rest : List (Option Char)) :
    (read_key_escape rest).1 =
      escape_table (rest.getD 0 none) (rest.getD 1 none) (rest.getD 2 none) := by
  rcases rest with _ | ⟨_ | a, r1⟩
  · simp [read_key_escape, read_byte, escape_table]
  · simp [read_key_escape, read_byte, escape_table]
  · rcases r1 with _ | ⟨_ | b, r2⟩
    · simp [read_key_escape, read_byte, escape_table]
    · simp [read_key_escape, read_byte, escape_table]
    · rw [read_key_escape_two]
      simp

theorem editor_read_key_skips (sg : Bool) (k : Nat) (input : List (Option Char)) :
    editor_read_key sg (List.replicate k none ++ input) = editor_read_key sg input := by
  induction k with
  | zero => rfl
  | succ k ih => rw [List.replicate_succ, List.cons_append, editor_read_key, ih]

/-- The `int` of a `char` is its code for the bytes below 0x80 and wherever
`char` is unsigned, its code less 256 for the other bytes where `char` is
signed; stored into a `char` again it is the byte. -/
theorem char_to_int_values (sg : Bool) (b : Char) :
    (b.toNat < 128 ∨ sg = false → char_to_int sg b = chr b) ∧
    (128 ≤ b.toNat → char_to_int true b = chr b - 256) ∧
    (b.toNat < 256 → to_char (char_to_int sg b) = b) := by
  refine ⟨?_, ?_, ?_⟩
  · intro h
    have hn : ¬ (sg = true ∧ 128 ≤ b.toNat) := by
      rintro ⟨h1, h2⟩
      rcases h with h | h
      · omega
      · rw [h] at h1; cases h1
    rw [char_to_int, if_neg hn, chr]
  · intro h
    rw [char_to_int, if_pos ⟨rfl, h⟩, chr]
  · intro h
    have e : (char_to_int sg b % 256).toNat = b.toNat := by
      unfold char_to_int
      split_ifs <;> omega
    rw [to_char, e, Char.ofNat_toNat]

theorem ite_mem_list {α : Type} (c : Prop) [Decidable c] (a b : α) (l : List α)
    (ha : a ∈ l) (hb : b ∈ l) : (if c then a else b) ∈ l := by
  split_ifs <;> assumption

theorem escape_table_range (s0 s1 s2 : Option Char) :
    escape_table s0 s1 s2 ∈ [chr '\x1b', HOME_KEY, DEL_KEY, END_KEY, PAGE_UP, PAGE_DOWN,
      ARROW_UP, ARROW_DOWN, ARROW_RIGHT, ARROW_LEFT] := by
  unfold escape_table
  repeat' apply ite_mem_list
  all_goals decide

/-- C14 as stated fails where `char` is signed: for the byte 0xE9 = 233
`editor_read_key` returns -23, which is neither the byte 233 nor the escape
value nor one of the special keys. -/
theorem read_key_high_byte_negative :
    Char.ofNat 0xE9 ≠ '\x1b' ∧
    editor_read_key true high_byte_input = some (-23, []) ∧
    (-23 : Int) ≠ chr (Char.ofNat 0xE9) ∧ chr (Char.ofNat 0xE9) = 233 ∧
    (-23 : Int) ∉ [chr '\x1b', HOME_KEY, DEL_KEY, END_KEY, PAGE_UP, PAGE_DOWN,
      ARROW_UP, ARROW_DOWN, ARROW_RIGHT, ARROW_LEFT] := by
  decide

/-- C14, amended: let the reads give no byte `k` times, then the byte `b`,
then the results `rest`.  `editor_read_key` returns.  When `b` is not the
escape byte it returns the `char` `b` converted to `int`: `b` itself for
`b < 0x80` and wherever `char` is unsigned, `b - 256` for the bytes
0x80..0xFF where `char` is signed; stored into a `char` again the value is
`b`.  After an escape byte it returns the entry of `escape_table` for the
results of the next three reads (a read that gives no byte is `none`), which
is the escape value `0x1b` for every continuation that is not in the table.
It returns no value other than that of `b` and the nine special keys.  When
no byte ever arrives it does not return. -/
theorem editor_read_key_decodes (sg : Bool) (k : Nat) (b : Char)
    (rest : List (Option Char)) :
    (b ≠ '\x1b' →
      editor_read_key sg (List.replicate k none ++ some b :: rest) =
        some (char_to_int sg b, rest)) ∧
    (b = '\x1b' → ∃ left : List (Option Char),
      editor_read_key sg (List.replicate k none ++ some b :: rest) =
        some (escape_table (rest.getD 0 none) (rest.getD 1 none) (rest.getD 2 none), left)) ∧
    (∃ (v : Int) (left : List (Option Char)),
      editor_read_key sg (List.replicate k none ++ some b :: rest) = some (v, left) ∧
      (v = char_to_int sg b ∨ v ∈ [HOME_KEY, DEL_KEY, END_KEY, PAGE_UP, PAGE_DOWN,
        ARROW_UP, ARROW_DOWN, ARROW_RIGHT, ARROW_LEFT])) ∧
    editor_read_key sg (List.replicate k none) = none ∧
    (b.toNat < 128 ∨ sg = false → char_to_int sg b = chr b) ∧
    (128 ≤ b.toNat → char_to_int true b = chr b - 256) ∧
    (b.toNat < 256 → to_char (char_to_int sg b) = b) := by
  have hnone : editor_read_key sg (List.replicate k none) = none := by
    have := editor_read_key_skips sg k []
    rw [List.append_nil] at this
    rw [this]; rfl
  have hesc : b = '\x1b' →
      editor_read_key sg (List.replicate k none ++ some b :: rest) =
        some (escape_table (rest.getD 0 none) (rest.getD 1 none) (rest.getD 2 none),
          (read_key_escape rest).2) := by
    intro hb
    rw [editor_read_key_skips, editor_read_key, if_pos hb, ← read_key_escape_value]
  have hbyte : b ≠ '\x1b' →
      editor_read_key sg (List.replicate k none ++ some b :: rest) =
        some (char_to_int sg b, rest) := by
    intro hb
    rw [editor_read_key_skips, editor_read_key, if_neg hb]
  obtain ⟨v1, v2, v3⟩ := char_to_int_values sg b
  refine ⟨hbyte, fun hb => ⟨_, hesc hb⟩, ?_, hnone, v1, v2, v3⟩
  by_cases hb : b = '\x1b'
  · refine ⟨_, _, hesc hb, ?_⟩
    have hr := escape_table_range (rest.getD 0 none) (rest.getD 1 none) (rest.getD 2 none)
    rw [List.mem_cons] at hr
    rcases hr with h | h
    · left
      rw [h, v1 (Or.inl (by rw [hb]; decide)), hb]
    · right; exact h
  · exact ⟨_, _, hbyte hb, Or.inl rfl⟩

/-- C14 (amended) on the reads: no byte, escape, `[`, `5`, `~`, `x`, where
`char` is signed.  The key is `PAGE_UP` and the byte `x` is left for the next
call. -/
theorem editor_read_key_decodes_witness :
    editor_read_key true [none, some '\x1b', some '[', some '5', some '~', some 'x'] =
      some (PAGE_UP, [some 'x']) ∧
    ∃ left : List (Option Char),
      editor_read_key true (List.replicate 1 none ++
        some '\x1b' :: [some '[', some '5', some '~', some 'x']) = some (PAGE_UP, left) :=
  ⟨by decide,
    (editor_read_key_decodes true 1 '\x1b' [some '[', some '5', some '~', some 'x']).2.1 rfl⟩

/-! ## Find -/

theorem first_occurrence_some (needle : List Char) : ∀ (hay : List Char) (k : Nat),
    first_occurrence hay needle = some k →
      occurs_at hay needle k ∧ ∀ j : Nat, j < k → ¬ occurs_at hay needle j := by
  intro hay
  induction hay with
  | nil =>
    intro k h
    unfold first_occurrence at h
    split_ifs at h with hn
    cases h
    subst hn
    exact ⟨⟨le_refl _, rfl⟩, fun j hj => absurd hj (Nat.not_lt_zero j)⟩
  | cons c hay ih =>
    intro k h
    unfold first_occurrence at h
    split_ifs at h with hp
    · cases h
      exact ⟨⟨Nat.zero_le _, hp⟩, fun j hj => absurd hj (Nat.not_lt_zero j)⟩
    · rcases hs : first_occurrence hay needle with _ | k1
      · rw [hs] at h; cases h
      · rw [hs] at h
        simp only [Option.map_some', Option.some.injEq] at h
        subst h
        obtain ⟨⟨h1, h2⟩, h3⟩ := ih k1 hs
        refine ⟨⟨by simp; omega, by simpa using h2⟩, ?_⟩
        intro j hj
        rcases j with _ | j1
        · rintro ⟨_, h0⟩
          exact hp h0
        · rintro ⟨h4, h5⟩
          exact h3 j1 (by omega) ⟨by simp at h4; omega, by simpa using h5⟩

theorem first_occurrence_none (needle : List Char) : ∀ (hay : List Char),
    first_occurrence hay needle = none → ∀ k : Nat, ¬ occurs_at hay needle k := by
  intro hay
  induction hay with
  | nil =>
    intro h k
    unfold first_occurrence at h
    split_ifs at h with hn
    rintro ⟨_, h2⟩
    simp at h2
    exact hn h2
  | cons c hay ih =>
    intro h k
    unfold first_occurrence at h
    split_ifs at h with hp
    have hs : first_occurrence hay needle = none := by
      rcases hs : first_occurrence hay needle with _ | k1
      · rfl
      · rw [hs] at h; cases h
    rcases k with _ | k1
    · rintro ⟨_, h0⟩
      exact hp h0
    · rintro ⟨h4, h5⟩
      exact ih hs k1 ⟨by simp at h4; omega, by simpa using h5⟩

theorem first_occurrence_first (hay needle : List Char) (k : Nat) :
    first_occurrence hay needle = some k ↔
      occurs_at hay needle k ∧ ∀ j : Nat, j < k → ¬ occurs_at hay needle j := by
  constructor
  · exact first_occurrence_some needle hay k
  · rintro ⟨h1, h2⟩
    rcases hs : first_occurrence hay needle with _ | k1
    · exact absurd h1 (first_occurrence_none needle hay hs k)
    · obtain ⟨h3, h4⟩ := first_occurrence_some needle hay k1 hs
      have : k1 = k := by
        rcases Nat.lt_trichotomy k1 k with h | h | h
        · exact absurd h3 (h2 k1 h)
        · exact h
        · exact absurd h1 (h4 k h)
      rw [this]

theorem first_occurrence_absent (hay needle : List Char) :
    first_occurrence hay needle = none ↔ ∀ k : Nat, ¬ occurs_at hay needle k := by
  constructor
  · exact first_occurrence_none needle hay
  · intro h
    rcases hs : first_occurrence hay needle with _ | k1
    · rfl
    · exact absurd (first_occurrence_some needle hay k1 hs).1 (h k1)

/-- The first offset `strstr` gives is that of the first occurrence of the
one C string in the other. -/
theorem strstr_first (hay needle : List Char) (k : Nat) :
    strstr hay needle = some k ↔
      occurs_at (c_string hay) (c_string needle) k ∧
        ∀ j : Nat, j < k → ¬ occurs_at (c_string hay) (c_string needle) j :=
  first_occurrence_first (c_string hay) (c_string needle) k

theorem strstr_absent (hay needle : List Char) :
    strstr hay needle = none ↔ ∀ k : Nat, ¬ occurs_at (c_string hay) (c_string needle) k :=
  first_occurrence_absent (c_string hay) (c_string needle)

/-- A buffer without a NUL byte is read whole. -/
theorem c_string_of_no_nul (l : List Char) (h : Char.ofNat 0 ∉ l) : c_string l = l := by
  induction l with
  | nil => rfl
  | cons c l ih =>
    have hc : c ≠ Char.ofNat 0 := fun e => h (by simp [e])
    have hl : Char.ofNat 0 ∉ l := fun hm => h (by simp [hm])
    have e := ih hl
    unfold c_string at e ⊢
    rw [List.takeWhile_cons_of_pos (by simpa using hc), e]

/-- The string read in a buffer is the part of the buffer before its first
NUL byte. -/
theorem c_string_spec (l : List Char) :
    c_string l = l.take (c_string l).length ∧ Char.ofNat 0 ∉ c_string l ∧
    ((c_string l).length < l.length → l.getD (c_string l).length 'x' = Char.ofNat 0) := by
  induction l with
  | nil => exact ⟨rfl, by simp [c_string], fun h => absurd h (by simp [c_string])⟩
  | cons c l ih =>
    by_cases hc : c = Char.ofNat 0
    · have e : c_string (c :: l) = [] := by
        unfold c_string
        rw [List.takeWhile_cons_of_neg (by simpa using hc)]
      rw [e]
      exact ⟨rfl, by simp, fun _ => by simpa using hc⟩
    · have e : c_string (c :: l) = c :: c_string l := by
        unfold c_string
        rw [List.takeWhile_cons_of_pos (by simpa using hc)]
      obtain ⟨i1, i2, i3⟩ := ih
      rw [e]
      refine ⟨?_, ?_, ?_⟩
      · simp only [List.length_cons, List.take_succ_cons]
        rw [← i1]
      · simp only [List.mem_cons, not_or]
        exact ⟨fun h => hc h.symm, i2⟩
      · intro h
        simp only [List.length_cons] at h ⊢
        rw [List.getD_cons_succ]
        exact i3 (by omega)

/-- The loop of `editor_find_callback` finds the first row from `i` on that
holds the query, or leaves the state alone. -/
theorem find_callback_loop_spec (E : editor_config) (query : List Char) : ∀ (fuel : Nat) (i : Int),
    ((∀ j : Int, i ≤ j → j < i + (fuel : Int) → strstr (row_at E j).render query = none) →
      find_callback_loop E query fuel i = E) ∧
    (∀ (m : Int) (off : Nat), i ≤ m → m < i + (fuel : Int) →
      strstr (row_at E m).render query = some off →
      (∀ j : Int, i ≤ j → j < m → strstr (row_at E j).render query = none) →
      find_callback_loop E query fuel i =
        { E with
          cx := m
          cy := editor_row_ry_to_cy (row_at E m) (off : Int)
          rowoff := E.numrows }) := by
  intro fuel
  induction fuel with
  | zero =>
    intro i
    refine ⟨fun _ => rfl, ?_⟩
    intro m off h1 h2
    simp at h2
    omega
  | succ fuel ih =>
    intro i
    obtain ⟨ih1, ih2⟩ := ih (i + 1)
    constructor
    · intro h
      have h0 := h i (le_refl _) (by push_cast; omega)
      rw [find_callback_loop, h0]
      exact ih1 (fun j hj1 hj2 => h j (by omega) (by push_cast; omega))
    · intro m off h1 h2 h3 h4
      by_cases hm : m = i
      · subst hm
        rw [find_callback_loop, h3]
      · have h0 := h4 i (le_refl _) (by omega)
        rw [find_callback_loop, h0]
        exact ih2 m off (by omega) (by push_cast at h2; omega) h3
          (fun j hj1 hj2 => h4 j (by omega) hj2)

/-- C15 as stated fails on a row that holds a NUL byte: in the rows "x",
"a\x00def", "def" with the cursor on row 0, the render of row 1 holds the
query "def" at the offset 2, which is raw column 2, but `editor_find_callback`
passes that row and puts the cursor on row 2, column 0. -/
theorem find_passes_row_with_nul :
    nul_rows.cx = 0 ∧ (row_at nul_rows 1).render = "a\x00def".toList ∧
    occurs_at (row_at nul_rows 1).render "def".toList 2 ∧
    editor_row_ry_to_cy (row_at nul_rows 1) 2 = 2 ∧
    (editor_find_callback nul_rows "def".toList (chr 'f')).cx = 2 ∧
    (editor_find_callback nul_rows "def".toList (chr 'f')).cy = 0 ∧
    ¬ ((editor_find_callback nul_rows "def".toList (chr 'f')).cx = 1 ∧
       (editor_find_callback nul_rows "def".toList (chr 'f')).cy = 2) := by
  decide

/-- C15, amended: for a key other than Escape and Enter,
`editor_find_callback` moves the cursor to the first row `i > cx` in whose
render `strstr` finds the query, at the offset `off`, sets the column to
`editor_row_ry_to_cy (row i, off)` and `rowoff` to `numrows`, and changes
nothing else; when `strstr` finds the query in no row after `cx`, or the key
is Escape or Enter, the state is unchanged.  `strstr` reads the render and
the query as C strings, up to their first NUL byte: it gives the first
offset at which the query stands in the render read so, and nothing exactly
when it stands nowhere in it.  A render or query without a NUL byte is read
whole. -/
theorem editor_find_callback_jumps (E : editor_config) (query : List Char) (key : Int) :
    (key ≠ chr '\x1b' → key ≠ chr '\r' → ∀ (i : Int) (off : Nat),
      E.cx < i → i < E.numrows → strstr (row_at E i).render query = some off →
      (∀ j : Int, E.cx < j → j < i → strstr (row_at E j).render query = none) →
      editor_find_callback E query key =
        { E with
          cx := i
          cy := editor_row_ry_to_cy (row_at E i) (off : Int)
          rowoff := E.numrows }) ∧
    ((∀ j : Int, E.cx < j → j < E.numrows → strstr (row_at E j).render query = none) →
      editor_find_callback E query key = E) ∧
    (key = chr '\x1b' ∨ key = chr '\r' → editor_find_callback E query key = E) ∧
    (∀ (hay needle : List Char) (k : Nat), strstr hay needle = some k ↔
      occurs_at (c_string hay) (c_string needle) k ∧
        ∀ j : Nat, j < k → ¬ occurs_at (c_string hay) (c_string needle) j) ∧
    (∀ hay needle : List Char, strstr hay needle = none ↔
      ∀ k : Nat, ¬ occurs_at (c_string hay) (c_string needle) k) ∧
    (∀ l : List Char, c_string l = l.take (c_string l).length ∧
      Char.ofNat 0 ∉ c_string l ∧
      ((c_string l).length < l.length → l.getD (c_string l).length 'x' = Char.ofNat 0)) ∧
    (∀ l : List Char, Char.ofNat 0 ∉ l → c_string l = l) := by
  obtain ⟨l1, l2⟩ := find_callback_loop_spec E query (E.numrows - (E.cx + 1)).toNat (E.cx + 1)
  refine ⟨?_, ?_, ?_, strstr_first, strstr_absent, c_string_spec, c_string_of_no_nul⟩
  · intro hk1 hk2 i off h1 h2 h3 h4
    have hk : ¬ (key = chr '\x1b' ∨ key = chr '\r') := by tauto
    rw [editor_find_callback, if_neg hk]
    exact l2 i off (by omega) (by omega) h3 (fun j hj1 hj2 => h4 j (by omega) hj2)
  · intro h
    unfold editor_find_callback
    split_ifs
    · rfl
    · exact l1 (fun j hj1 hj2 => h j (by omega) (by omega))
  · intro hk
    rw [editor_find_callback, if_pos hk]

/-- The end-to-end example of C15: in "abc", "def", "ghi" with the cursor on
row 0, the query "def" typed with the key `f` puts the cursor at (1, 0). -/
theorem editor_find_callback_jumps_witness :
    (editor_find_callback (mk_editor ["abc", "def", "ghi"] 24 80) "def".toList (chr 'f')).cx = 1 ∧
    (editor_find_callback (mk_editor ["abc", "def", "ghi"] 24 80) "def".toList (chr 'f')).cy = 0 ∧
    editor_find_callback (mk_editor ["abc", "def", "ghi"] 24 80) "def".toList (chr 'f') =
      { mk_editor ["abc", "def", "ghi"] 24 80 with
        cx := 1
        cy := editor_row_ry_to_cy (row_at (mk_editor ["abc", "def", "ghi"] 24 80) 1) ((0 : Nat) : Int)
        rowoff := (mk_editor ["abc", "def", "ghi"] 24 80).numrows } :=
  ⟨by decide, by decide,
    (editor_find_callback_jumps (mk_editor ["abc", "def", "ghi"] 24 80) "def".toList (chr 'f')).1
      (by decide) (by decide) 1 0 (by decide) (by decide) (by decide)
      (fun j h1 h2 => absurd h2 (by simp [mk_editor] at h1 ⊢; omega))⟩

/-! ## Page keys -/

theorem iterate_move (key : Int) : ∀ (n : Nat) (E : editor_config),
    Nat.iterate (fun S => editor_move_cursor S key) n E = repeat_move n key E := by
  intro n
  induction n with
  | zero => intro E; rfl
  | succ n ih => intro E; rw [Function.iterate_succ_apply, ih, repeat_move]

/-- The row of the cursor after one `ARROW_UP`, and the fields the move
does not touch. -/
theorem move_up_cx (E : editor_config) :
    (editor_move_cursor E ARROW_UP).cx = (if E.cx > 0 then E.cx - 1 else E.cx) ∧
    (editor_move_cursor E ARROW_UP).numrows = E.numrows := by
  have h1 : ARROW_UP ≠ ARROW_LEFT := by decide
  have h2 : ARROW_UP ≠ ARROW_RIGHT := by decide
  simp only [editor_move_cursor, h1, h2, if_false, if_true]
  split_ifs <;> simp

theorem move_down_cx (E : editor_config) :
    (editor_move_cursor E ARROW_DOWN).cx = (if E.cx < E.numrows then E.cx + 1 else E.cx) ∧
    (editor_move_cursor E ARROW_DOWN).numrows = E.numrows := by
  have h1 : ARROW_DOWN ≠ ARROW_LEFT := by decide
  have h2 : ARROW_DOWN ≠ ARROW_RIGHT := by decide
  have h3 : ARROW_DOWN ≠ ARROW_UP := by decide
  simp only [editor_move_cursor, h1, h2, h3, if_false, if_true]
  split_ifs <;> simp

theorem repeat_up_cx : ∀ (n : Nat) (E : editor_config), 0 ≤ E.cx →
    (repeat_move n ARROW_UP E).cx = max (E.cx - (n : Int)) 0 := by
  intro n
  induction n with
  | zero => intro E h; simp [repeat_move, h]
  | succ n ih =>
    intro E h
    have hm := (move_up_cx E).1
    rw [repeat_move, ih _ (by rw [hm]; split_ifs <;> omega), hm]
    push_cast
    split_ifs <;> omega

theorem repeat_down_cx : ∀ (n : Nat) (E : editor_config), E.cx ≤ E.numrows →
    (repeat_move n ARROW_DOWN E).cx = min (E.cx + (n : Int)) E.numrows := by
  intro n
  induction n with
  | zero => intro E h; simp [repeat_move, h]
  | succ n ih =>
    intro E h
    obtain ⟨hm, hn⟩ := move_down_cx E
    rw [repeat_move, ih _ (by rw [hm, hn]; split_ifs <;> omega), hm, hn]
    push_cast
    split_ifs <;> omega

/-- C19 as stated fails: with five rows, two screen rows, the window at rows
2 and 3 and the cursor on row 3, `PAGE_UP` leaves the cursor on row 0, while
two `ARROW_UP` moves from the cursor leave it on row 1. -/
theorem page_up_not_from_cursor :
    doc_ok five_lines ∧ cursor_on_row five_lines ∧ 1 ≤ five_lines.screenrows ∧
    five_lines.rowoff ≤ five_lines.cx ∧
    five_lines.cx < five_lines.rowoff + five_lines.screenrows ∧
    (keypress_state (editor_process_keypress id id five_lines Q_TIMES_TO_QUIT PAGE_UP)).map
      editor_config.cx = some 0 ∧
    (repeat_move five_lines.screenrows.toNat ARROW_UP five_lines).cx = 1 := by
  decide

/-- C19, amended: `PAGE_UP` first puts the cursor on the top row of the
window, `rowoff`, and `PAGE_DOWN` on its bottom row, `rowoff + screenrows - 1`
or `numrows` if that is less; from there the state is the one that
`screenrows` successive `editor_move_cursor(ARROW_UP)` (`ARROW_DOWN`) calls
give.  With `0 ≤ rowoff` and `screenrows ≥ 1` the cursor row ends at
`max (rowoff - screenrows, 0)` and at `min (rowoff + 2 * screenrows - 1,
numrows)`. -/
theorem page_keys_from_window_edge (sv fd : editor_config → editor_config)
    (E : editor_config) (to_quit : Int) (h0 : 0 ≤ E.rowoff) (hs : 1 ≤ E.screenrows) :
    editor_process_keypress sv fd E to_quit PAGE_UP =
      .running (repeat_move E.screenrows.toNat ARROW_UP { E with cx := E.rowoff })
        Q_TIMES_TO_QUIT ∧
    editor_process_keypress sv fd E to_quit PAGE_DOWN =
      .running (repeat_move E.screenrows.toNat ARROW_DOWN
        { E with cx := min (E.rowoff + E.screenrows - 1) E.numrows }) Q_TIMES_TO_QUIT ∧
    (repeat_move E.screenrows.toNat ARROW_UP { E with cx := E.rowoff }).cx =
      max (E.rowoff - E.screenrows) 0 ∧
    (repeat_move E.screenrows.toNat ARROW_DOWN
      { E with cx := min (E.rowoff + E.screenrows - 1) E.numrows }).cx =
      min (E.rowoff + 2 * E.screenrows - 1) E.numrows := by
  have k1 : PAGE_UP ≠ chr '\r' := by decide
  have k2 : PAGE_UP ≠ CTRL_KEY 'q' := by decide
  have k3 : PAGE_UP ≠ CTRL_KEY 's' := by decide
  have k4 : PAGE_UP ≠ CTRL_KEY 'f' := by decide
  have d1 : PAGE_DOWN ≠ chr '\r' := by decide
  have d2 : PAGE_DOWN ≠ CTRL_KEY 'q' := by decide
  have d3 : PAGE_DOWN ≠ CTRL_KEY 's' := by decide
  have d4 : PAGE_DOWN ≠ CTRL_KEY 'f' := by decide
  have d5 : PAGE_DOWN ≠ PAGE_UP := by decide
  have e : (E.screenrows.toNat : Int) = E.screenrows := by omega
  refine ⟨?_, ?_, ?_, ?_⟩
  · simp only [editor_process_keypress, k1, k2, k3, k4, if_false, true_or, if_true,
      iterate_move]
  · simp only [editor_process_keypress, d1, d2, d3, d4, d5, if_false, or_true, if_true,
      iterate_move]
    by_cases hgt : E.rowoff + E.screenrows - 1 > E.numrows
    · rw [if_pos hgt, min_eq_right (by omega)]
    · rw [if_neg hgt, min_eq_left (by omega)]
  · rw [repeat_up_cx _ _ h0, e]
  · rw [repeat_down_cx _ _ (by simp only []; omega), e]
    simp only []
    omega

/-- C19 (amended) on the five line file: `PAGE_UP` is two `ARROW_UP` moves
from row 2, the top of the window, and ends on row 0. -/
theorem page_keys_from_window_edge_witness :
    0 ≤ five_lines.rowoff ∧ 1 ≤ five_lines.screenrows ∧
    editor_process_keypress id id five_lines Q_TIMES_TO_QUIT PAGE_UP =
      .running (repeat_move five_lines.screenrows.toNat ARROW_UP
        { five_lines with cx := five_lines.rowoff }) Q_TIMES_TO_QUIT ∧
    (repeat_move five_lines.screenrows.toNat ARROW_UP
      { five_lines with cx := five_lines.rowoff }).cx = 0 :=
  have h := page_keys_from_window_edge id id five_lines Q_TIMES_TO_QUIT (by decide) (by decide)
  ⟨by decide, by decide, h.1, by decide⟩

/-! ## The row store -/

/-- C18, evaluated on the code: on the document of one empty row, which has
a non-negative row count and a size that is the length of its content,
`editor_row_delete_char (row 0, at = 0)` passes the range test
`at > row->size`, moves nothing and decrements `size` to -1. -/
theorem row_delete_char_negative_size :
    doc_ok empty_line_state ∧ 0 ≤ empty_line_state.numrows ∧
    (row_at empty_line_state 0).size = 0 ∧ (row_at empty_line_state 0).data = [] ∧
    (row_at (editor_row_delete_char empty_line_state 0 0) 0).size = -1 ∧
    (row_at (editor_row_delete_char empty_line_state 0 0) 0).data = [] ∧
    ¬ doc_ok (editor_row_delete_char empty_line_state 0 0) := by
  decide

/-! ## Row operations and properties of all rows -/

theorem row_at_all (P : erow → Prop) (E : editor_config) (h : rows_all P E) (h0 : P empty_row)
    (i : Int) : P (row_at E i) := by
  unfold row_at
  split_ifs
  · exact h0
  · by_cases hi : i.toNat < E.rows.length
    · rw [List.getD_eq_getElem _ _ hi]
      exact h.2 _ (List.getElem_mem _)
    · rw [List.getD_eq_default _ _ (by omega)]
      exact h0

theorem set_row_all (P : erow → Prop) (E : editor_config) (h : rows_all P E) (i : Int)
    (r : erow) (hr : P r) : rows_all P (set_row E i r) := by
  unfold set_row
  split_ifs
  · exact h
  · refine ⟨by simpa using h.1, ?_⟩
    intro row hm
    rcases List.mem_or_eq_of_mem_set hm with h1 | h1
    · exact h.2 row h1
    · rw [h1]; exact hr

theorem insert_row_all (P : erow → Prop) (E : editor_config) (h : rows_all P E) (at_ : Int)
    (s : List Char) (len : Nat)
    (hr : P (editor_update_row
      { size := (len : Int), rsize := 0, data := s.take len, render := [] })) :
    rows_all P (editor_insert_row E at_ s len) := by
  unfold editor_insert_row
  split_ifs with hc
  · exact h
  · have hn := h.1
    refine ⟨?_, ?_⟩
    · simp only [List.length_append, List.length_cons, List.length_take, List.length_drop]
      omega
    · intro row hm
      simp only [List.mem_append, List.mem_cons] at hm
      rcases hm with h1 | h1 | h1
      · exact h.2 row (List.mem_of_mem_take h1)
      · rw [h1]; exact hr
      · exact h.2 row (List.mem_of_mem_drop h1)

theorem delete_row_all (P : erow → Prop) (E : editor_config) (h : rows_all P E) (at_ : Int) :
    rows_all P (editor_delete_row E at_) := by
  unfold editor_delete_row
  split_ifs with hc
  · exact h
  · have hn := h.1
    refine ⟨?_, ?_⟩
    · simp only []
      rw [List.length_eraseIdx_of_lt (by omega)]
      omega
    · intro row hm
      exact h.2 row (List.mem_of_mem_eraseIdx hm)

theorem rows_all_fields (P : erow → Prop) (E S : editor_config) (h : rows_all P E)
    (hr : S.rows = E.rows) (hn : S.numrows = E.numrows) : rows_all P S := by
  unfold rows_all at *
  rw [hr, hn]
  exact h

theorem row_insert_char_all (P : erow → Prop)
    (hP : ∀ r : erow, r.size = (r.data.length : Int) → P (editor_update_row r))
    (hsz : ∀ r : erow, P r → r.size = (r.data.length : Int)) (h0 : P empty_row)
    (E : editor_config) (h : rows_all P E) (ri at_ c : Int) :
    rows_all P (editor_row_insert_char E ri at_ c) := by
  have hrow := hsz _ (row_at_all P E h h0 ri)
  unfold editor_row_insert_char
  refine rows_all_fields P _ _ (set_row_all P E h ri _ (hP _ ?_)) rfl rfl
  simp only [List.length_append, List.length_cons, List.length_take, List.length_drop]
  split_ifs <;> omega

theorem row_append_string_all (P : erow → Prop)
    (hP : ∀ r : erow, r.size = (r.data.length : Int) → P (editor_update_row r))
    (hsz : ∀ r : erow, P r → r.size = (r.data.length : Int)) (h0 : P empty_row)
    (E : editor_config) (h : rows_all P E) (ri : Int) (s : List Char) (len : Nat)
    (hl : len ≤ s.length) :
    rows_all P (editor_row_append_string E ri s len) := by
  have hrow := hsz _ (row_at_all P E h h0 ri)
  unfold editor_row_append_string
  refine rows_all_fields P _ _ (set_row_all P E h ri _ (hP _ ?_)) rfl rfl
  simp only [List.length_append, List.length_take]
  omega

theorem row_delete_char_all (P : erow → Prop)
    (hP : ∀ r : erow, r.size = (r.data.length : Int) → P (editor_update_row r))
    (hsz : ∀ r : erow, P r → r.size = (r.data.length : Int)) (h0 : P empty_row)
    (E : editor_config) (h : rows_all P E) (ri at_ : Int) (hat : at_ < (row_at E ri).size) :
    rows_all P (editor_row_delete_char E ri at_) := by
  have hrow := hsz _ (row_at_all P E h h0 ri)
  unfold editor_row_delete_char
  dsimp only
  split_ifs with hc
  · exact h
  · refine rows_all_fields P _ _ (set_row_all P E h ri _ (hP _ ?_)) rfl rfl
    dsimp only
    rw [List.length_eraseIdx_of_lt (by omega)]
    omega

theorem insert_char_all (P : erow → Prop)
    (hP : ∀ r : erow, r.size = (r.data.length : Int) → P (editor_update_row r))
    (hsz : ∀ r : erow, P r → r.size = (r.data.length : Int)) (h0 : P empty_row)
    (E : editor_config) (h : rows_all P E) (c : Int) :
    rows_all P (editor_insert_char E c) := by
  unfold editor_insert_char
  have h1 : rows_all P (if E.cx = E.numrows then editor_insert_row E E.cx [] 0 else E) := by
    split_ifs
    · exact insert_row_all P E h _ _ _ (hP _ rfl)
    · exact h
  exact rows_all_fields P _ _ (row_insert_char_all P hP hsz h0 _ h1 _ _ c) rfl rfl

theorem delete_char_all (P : erow → Prop)
    (hP : ∀ r : erow, r.size = (r.data.length : Int) → P (editor_update_row r))
    (hsz : ∀ r : erow, P r → r.size = (r.data.length : Int)) (h0 : P empty_row)
    (E : editor_config) (h : rows_all P E) (hc : cursor_ok E) :
    rows_all P (editor_delete_char E) := by
  obtain ⟨c0, c1, c2, c3⟩ := hc
  unfold editor_delete_char
  dsimp only
  split_ifs with k1 k2 k3
  · exact h
  · exact h
  · have hlt : E.cx < E.numrows := by omega
    rw [if_pos hlt] at c3
    exact rows_all_fields P _ _
      (row_delete_char_all P hP hsz h0 E h E.cx (E.cy - 1) (by omega)) rfl rfl
  · have hrow := hsz _ (row_at_all P E h h0 E.cx)
    have hE1 : rows_all P { E with cy := (row_at E (E.cx - 1)).size } :=
      rows_all_fields P E _ h rfl rfl
    have hE2 := row_append_string_all P hP hsz h0 _ hE1 (E.cx - 1) (row_at E E.cx).data
      (row_at E E.cx).size.toNat (by omega)
    exact rows_all_fields P _ _ (delete_row_all P _ hE2 _) rfl rfl

theorem insert_new_line_all (P : erow → Prop)
    (hP : ∀ r : erow, r.size = (r.data.length : Int) → P (editor_update_row r))
    (hsz : ∀ r : erow, P r → r.size = (r.data.length : Int))
    (E : editor_config) (h : rows_all P E) (hc : cursor_ok E) :
    rows_all P (editor_insert_new_line E) := by
  obtain ⟨c0, c1, c2, c3⟩ := hc
  by_cases hcy : E.cy = 0
  · have e : editor_insert_new_line E =
        { editor_insert_row E E.cx [] 0 with
          cx := (editor_insert_row E E.cx [] 0).cx + 1, cy := 0 } := by
      simp only [editor_insert_new_line, hcy, if_true]
    rw [e]
    exact rows_all_fields P _ _ (insert_row_all P E h _ _ _ (hP _ rfl)) rfl rfl
  · have hlt : E.cx < E.numrows := by
      by_contra hge
      rw [if_neg hge] at c3
      omega
    rw [if_pos hlt] at c3
    have hd : doc_ok E := ⟨h.1, fun row hm => hsz row (h.2 row hm)⟩
    obtain ⟨A, row, B, hr, hx, hrow, hA, hB, hs, h0, h1, hsA, hsB⟩ :=
      split_at_cursor E hd ⟨c0, hlt, c2, c3⟩
    have hn := h.1
    rw [insert_new_line_rows E A B row hr hx hn]
    simp only [hcy, if_false]
    refine ⟨?_, ?_⟩
    · rw [hr] at hn
      simp only [List.length_append, List.length_cons] at hn ⊢
      push_cast at hn ⊢
      omega
    · intro r hm
      simp only [List.mem_append, List.mem_cons] at hm
      rcases hm with k | k | k | k
      · exact h.2 r (by rw [hr]; simp [k])
      · rw [k]
        refine hP _ ?_
        simp only [List.length_take]
        omega
      · rw [k]
        refine hP _ ?_
        simp only [List.length_take, List.length_drop]
        omega
      · exact h.2 r (by rw [hr]; simp [k])

theorem update_row_synced (r : erow) (h : r.size = (r.data.length : Int)) :
    row_synced (editor_update_row r) := by
  have hk : r.size.toNat = r.data.length := by omega
  refine ⟨h, ?_, rfl⟩
  rw [editor_update_row_render r (by omega), hk, List.take_length]
  rfl

/-- C17: in a state whose row count and row sizes agree with what is stored
and in which every row has its render equal to the tab expansion of its data
and `rsize` equal to the length of the render, and with a valid cursor (on a
row, or at column 0 of the virtual row after the last row), the states after
`editor_insert_char`, `editor_delete_char` and `editor_insert_new_line` have
the same property: every row's render is the tab expansion of that row's
data. -/
theorem edits_keep_render_synced (E : editor_config) (c : Int) (hs : doc_synced E)
    (hc : cursor_ok E) :
    doc_synced (editor_insert_char E c) ∧ doc_synced (editor_delete_char E) ∧
    doc_synced (editor_insert_new_line E) ∧
    (∀ row ∈ (editor_insert_char E c).rows, row.render = tab_expansion row.data) ∧
    (∀ row ∈ (editor_delete_char E).rows, row.render = tab_expansion row.data) ∧
    (∀ row ∈ (editor_insert_new_line E).rows, row.render = tab_expansion row.data) := by
  have hP : ∀ r : erow, r.size = (r.data.length : Int) → row_synced (editor_update_row r) :=
    update_row_synced
  have hsz : ∀ r : erow, row_synced r → r.size = (r.data.length : Int) := fun r h => h.1
  have h0 : row_synced empty_row := by decide
  have h1 := insert_char_all row_synced hP hsz h0 E hs c
  have h2 := delete_char_all row_synced hP hsz h0 E hs hc
  have h3 := insert_new_line_all row_synced hP hsz E hs hc
  exact ⟨h1, h2, h3, fun row hm => (h1.2 row hm).2.1, fun row hm => (h2.2 row hm).2.1,
    fun row hm => (h3.2 row hm).2.1⟩

/-- C17 on "abc", "def", "ghi" with the cursor at (1, 3): the renders stay
in sync after a tab is typed; row 1 then renders as `def` and five spaces. -/
theorem edits_keep_render_synced_witness :
    doc_synced three_lines ∧ cursor_ok three_lines ∧
    doc_synced (editor_insert_char three_lines (chr '\t')) ∧
    (row_at (editor_insert_char three_lines (chr '\t')) 1).render = "def     ".toList :=
  ⟨by decide, by decide, (edits_keep_render_synced three_lines (chr '\t') (by decide)
    (by decide)).1, by decide⟩

/-- The row store operations keep the row count and the row sizes in
agreement with what is stored, for all arguments of `editor_insert_row`,
`editor_delete_row` and `editor_row_insert_char`, for every string of at
least `len` bytes appended, and for `editor_row_delete_char` at an index
below the row size. -/
theorem row_store_keeps_sizes (E : editor_config) (hd : doc_ok E) :
    (∀ (at_ : Int) (s : List Char) (len : Nat), len ≤ s.length →
      doc_ok (editor_insert_row E at_ s len)) ∧
    (∀ at_ : Int, doc_ok (editor_delete_row E at_)) ∧
    (∀ ri at_ c : Int, doc_ok (editor_row_insert_char E ri at_ c)) ∧
    (∀ (ri : Int) (s : List Char) (len : Nat), len ≤ s.length →
      doc_ok (editor_row_append_string E ri s len)) ∧
    (∀ ri at_ : Int, at_ < (row_at E ri).size → doc_ok (editor_row_delete_char E ri at_)) := by
  have hP : ∀ r : erow, r.size = (r.data.length : Int) →
      (editor_update_row r).size = ((editor_update_row r).data.length : Int) := fun r h => h
  have hsz : ∀ r : erow, r.size = (r.data.length : Int) → r.size = (r.data.length : Int) :=
    fun r h => h
  have h0 : empty_row.size = (empty_row.data.length : Int) := rfl
  refine ⟨?_, ?_, ?_, ?_, ?_⟩
  · intro at_ s len hl
    refine insert_row_all _ E hd at_ s len ?_
    simp only [editor_update_row_size, editor_update_row_data, List.length_take]
    omega
  · exact fun at_ => delete_row_all _ E hd at_
  · exact fun ri at_ c => row_insert_char_all _ hP hsz h0 E hd ri at_ c
  · exact fun ri s len hl => row_append_string_all _ hP hsz h0 E hd ri s len hl
  · exact fun ri at_ hat => row_delete_char_all _ hP hsz h0 E hd ri at_ hat

/-! ## The cursor stays valid -/

theorem editor_move_cursor_eq (E : editor_config) (key : Int) :
    editor_move_cursor E key = move_cursor_clamp (move_cursor_step E key) := rfl

theorem row_size_nonneg (E : editor_config) (hd : doc_ok E) (i : Int) :
    0 ≤ (row_at E i).size := by
  have h := row_at_all (fun r => r.size = (r.data.length : Int)) E hd rfl i
  simp only [] at h
  omega

theorem move_cursor_step_bounds (E : editor_config) (key : Int) (hd : doc_ok E)
    (h0 : 0 ≤ E.cx) (h1 : E.cx ≤ E.numrows) (h2 : 0 ≤ E.cy) :
    (move_cursor_step E key).rows = E.rows ∧ (move_cursor_step E key).numrows = E.numrows ∧
    0 ≤ (move_cursor_step E key).cx ∧ (move_cursor_step E key).cx ≤ E.numrows ∧
    0 ≤ (move_cursor_step E key).cy := by
  have s2 := row_size_nonneg E hd (E.cx - 1)
  unfold move_cursor_step
  dsimp only
  by_cases hlt : E.cx ≥ E.numrows
  · simp only [hlt, if_true]
    split_ifs <;> (try dsimp only) <;> refine ⟨?_, ?_, ?_, ?_, ?_⟩ <;> first | rfl | omega
  · simp only [hlt, if_false]
    split_ifs <;> (try dsimp only) <;> refine ⟨?_, ?_, ?_, ?_, ?_⟩ <;> first | rfl | omega

theorem move_cursor_clamp_ok (E1 : editor_config) (hd : doc_ok E1)
    (h0 : 0 ≤ E1.cx) (h1 : E1.cx ≤ E1.numrows) (h2 : 0 ≤ E1.cy) :
    cursor_ok (move_cursor_clamp E1) ∧ (move_cursor_clamp E1).rows = E1.rows ∧
    (move_cursor_clamp E1).numrows = E1.numrows := by
  have hrow : ∀ (b i : Int), row_at { E1 with cy := b } i = row_at E1 i := fun _ _ => rfl
  have s1 := row_size_nonneg E1 hd E1.cx
  unfold move_cursor_clamp cursor_ok
  dsimp only
  by_cases hlt : E1.cx ≥ E1.numrows
  · have hn : ¬ E1.cx < E1.numrows := by omega
    simp only [hlt, if_true]
    split_ifs <;> (try dsimp only) <;> (try simp only [hrow, hn, if_false]) <;>
      refine ⟨⟨?_, ?_, ?_, ?_⟩, ?_, ?_⟩ <;> first | rfl | trivial | omega
  · have hn : E1.cx < E1.numrows := by omega
    simp only [hlt, if_false]
    split_ifs <;> (try dsimp only) <;> (try simp only [hrow, hn, if_true]) <;>
      refine ⟨⟨?_, ?_, ?_, ?_⟩, ?_, ?_⟩ <;> first | rfl | trivial | omega

/-- `editor_move_cursor` leaves the document alone and ends with a valid
cursor, whatever the column was before: its last step clamps the column to
the length of the row the cursor is on. -/
theorem move_cursor_ok (E : editor_config) (key : Int) (hd : doc_ok E)
    (h0 : 0 ≤ E.cx) (h1 : E.cx ≤ E.numrows) (h2 : 0 ≤ E.cy) :
    cursor_ok (editor_move_cursor E key) ∧
    (editor_move_cursor E key).rows = E.rows ∧
    (editor_move_cursor E key).numrows = E.numrows := by
  obtain ⟨b1, b2, b3, b4, b5⟩ := move_cursor_step_bounds E key hd h0 h1 h2
  have hd1 : doc_ok (move_cursor_step E key) := rows_all_fields _ E _ hd b1 b2
  rw [editor_move_cursor_eq]
  obtain ⟨c1, c2, c3⟩ := move_cursor_clamp_ok (move_cursor_step E key) hd1 b3 (by omega) b5
  exact ⟨c1, by rw [c2, b1], by rw [c3, b2]⟩

theorem repeat_move_ok (key : Int) : ∀ (n : Nat) (E : editor_config), doc_ok E →
    0 ≤ E.cx → E.cx ≤ E.numrows → 0 ≤ E.cy → 1 ≤ n →
    cursor_ok (repeat_move n key E) ∧ (repeat_move n key E).rows = E.rows ∧
    (repeat_move n key E).numrows = E.numrows := by
  intro n
  induction n with
  | zero => intro E _ _ _ _ h; omega
  | succ n ih =>
    intro E hd h0 h1 h2 _
    obtain ⟨m1, m2, m3⟩ := move_cursor_ok E key hd h0 h1 h2
    rw [repeat_move]
    by_cases hn : n = 0
    · subst hn
      exact ⟨m1, m2, m3⟩
    · have hd1 : doc_ok (editor_move_cursor E key) := rows_all_fields _ E _ hd m2 m3
      obtain ⟨i1, i2, i3⟩ := ih _ hd1 m1.1 m1.2.1 m1.2.2.1 (by omega)
      exact ⟨i1, by rw [i2, m2], by rw [i3, m3]⟩

/-- A cursor at column 0 of a row index of `[0, numrows]` is valid. -/
theorem cursor_ok_column_zero (E : editor_config) (hd : doc_ok E) (h0 : 0 ≤ E.cx)
    (h1 : E.cx ≤ E.numrows) (h2 : E.cy = 0) : cursor_ok E := by
  have s := row_size_nonneg E hd E.cx
  refine ⟨h0, h1, by omega, ?_⟩
  split_ifs <;> omega

theorem insert_row_fields (E : editor_config) (at_ : Int) (s : List Char) (len : Nat) :
    (editor_insert_row E at_ s len).cx = E.cx ∧ (editor_insert_row E at_ s len).cy = E.cy ∧
    (0 ≤ at_ → at_ ≤ E.numrows → (editor_insert_row E at_ s len).numrows = E.numrows + 1) := by
  unfold editor_insert_row
  split_ifs with h
  · exact ⟨rfl, rfl, fun a b => by omega⟩
  · exact ⟨rfl, rfl, fun _ _ => rfl⟩

theorem insert_new_line_cursor (E : editor_config) (hd : doc_ok E) (hc : cursor_ok E) :
    cursor_ok (editor_insert_new_line E) ∧ doc_ok (editor_insert_new_line E) := by
  have hd1 : doc_ok (editor_insert_new_line E) :=
    insert_new_line_all _ (fun r h => h) (fun r h => h) E hd hc
  refine ⟨?_, hd1⟩
  obtain ⟨c0, c1, c2, c3⟩ := hc
  have hf : (editor_insert_new_line E).cx = E.cx + 1 ∧ (editor_insert_new_line E).cy = 0 ∧
      (editor_insert_new_line E).numrows = E.numrows + 1 := by
    by_cases hcy : E.cy = 0
    · obtain ⟨f1, f2, f3⟩ := insert_row_fields E E.cx [] 0
      simp only [editor_insert_new_line, hcy, if_true, f1, f3 c0 c1, and_self]
    · have hlt : E.cx < E.numrows := by
        by_contra hge
        rw [if_neg hge] at c3
        omega
      rw [if_pos hlt] at c3
      obtain ⟨A, row, B, hr, hx, _⟩ := split_at_cursor E hd ⟨c0, hlt, c2, c3⟩
      rw [insert_new_line_rows E A B row hr hx hd.1]
      exact ⟨rfl, rfl, rfl⟩
  exact cursor_ok_column_zero _ hd1 (by omega) (by omega) hf.2.1

theorem insert_char_cursor (E : editor_config) (c : Int) (hd : doc_ok E) (hc : cursor_ok E) :
    cursor_ok (editor_insert_char E c) ∧ doc_ok (editor_insert_char E c) := by
  have hd1 : doc_ok (editor_insert_char E c) :=
    insert_char_all _ (fun r h => h) (fun r h => h) rfl E hd c
  refine ⟨?_, hd1⟩
  obtain ⟨c0, c1, c2, c3⟩ := hc
  by_cases hlt : E.cx < E.numrows
  · rw [if_pos hlt] at c3
    obtain ⟨A, row, B, hr, hx, hrow, _, _, hs, _, h1, _, _⟩ :=
      split_at_cursor E hd ⟨c0, hlt, c2, c3⟩
    have hins := insert_char_in_row E A B row c hr hx hd.1 c2 (by omega)
    have hrow1 : row_at (editor_insert_char E c) E.cx = editor_update_row
        { row with
          data := row.data.take E.cy.toNat ++ to_char c :: row.data.drop E.cy.toNat
          size := row.size + 1 } := by
      rw [hins]
      exact row_at_mid _ A B _ rfl _ hx
    have e1 : (editor_insert_char E c).cx = E.cx := by rw [hins]
    have e2 : (editor_insert_char E c).cy = E.cy + 1 := by rw [hins]
    have e3 : (editor_insert_char E c).numrows = E.numrows := by rw [hins]
    unfold cursor_ok
    rw [e1, e2, e3, if_pos hlt, hrow1, editor_update_row_size]
    dsimp only
    omega
  · rw [if_neg hlt] at c3
    have hx : E.cx = E.numrows := by omega
    have hcy : E.cy = 0 := by omega
    have hins := insert_char_past_end E c hd.1 hx hcy
    have hrow1 : row_at (editor_insert_char E c) E.cx = editor_update_row
        { size := 0 + 1, rsize := 0, data := [to_char c], render := [] } := by
      rw [hins]
      exact row_at_mid _ E.rows [] _ rfl _ (by rw [hx]; exact hd.1)
    have e1 : (editor_insert_char E c).cx = E.cx := by rw [hins]
    have e2 : (editor_insert_char E c).cy = 1 := by rw [hins]
    have e3 : (editor_insert_char E c).numrows = E.numrows + 1 := by rw [hins]
    unfold cursor_ok
    rw [e1, e2, e3, if_pos (by omega), hrow1, editor_update_row_size]
    dsimp only
    omega

theorem delete_char_cursor (E : editor_config) (hd : doc_ok E) (hc : cursor_ok E) :
    cursor_ok (editor_delete_char E) ∧ doc_ok (editor_delete_char E) := by
  have hd1 : doc_ok (editor_delete_char E) :=
    delete_char_all _ (fun r h => h) (fun r h => h) rfl E hd hc
  refine ⟨?_, hd1⟩
  have hc' := hc
  obtain ⟨c0, c1, c2, c3⟩ := hc
  by_cases hlt : E.cx < E.numrows
  · rw [if_pos hlt] at c3
    obtain ⟨A, row, B, hr, hx, hrow, _, _, hs, _, h1, hsA, _⟩ :=
      split_at_cursor E hd ⟨c0, hlt, c2, c3⟩
    by_cases hcy : 0 < E.cy
    · have hdel := delete_char_in_row E A B row hr hx hd.1 hcy (by omega)
      have hrow1 : row_at (editor_delete_char E) E.cx = editor_update_row
          { row with data := row.data.eraseIdx (E.cy - 1).toNat, size := row.size - 1 } := by
        rw [hdel]
        exact row_at_mid _ A B _ rfl _ hx
      have e1 : (editor_delete_char E).cx = E.cx := by rw [hdel]
      have e2 : (editor_delete_char E).cy = E.cy - 1 := by rw [hdel]
      have e3 : (editor_delete_char E).numrows = E.numrows := by rw [hdel]
      unfold cursor_ok
      rw [e1, e2, e3, if_pos hlt, hrow1, editor_update_row_size]
      dsimp only
      omega
    · have hy0 : E.cy = 0 := by omega
      by_cases hx0 : E.cx = 0
      · have e : editor_delete_char E = E := by
          have k1 : ¬ (E.cx = E.numrows) := by omega
          simp [editor_delete_char, k1, hx0, hy0]
        rw [e]; exact hc'
      · rcases List.eq_nil_or_concat A with hnil | ⟨A0, prev, hA0⟩
        · rw [hnil] at hx; simp at hx; omega
        have hr2 : E.rows = A0 ++ prev :: row :: B := by rw [hr, hA0]; simp
        have hx2 : E.cx = (A0.length : Int) + 1 := by rw [hx, hA0]; simp
        have hps : prev.size = (prev.data.length : Int) := hsA prev (by rw [hA0]; simp)
        have hj := delete_char_join E A0 B prev row hr2 hx2 hd.1 hy0
        have hrow1 : row_at (editor_delete_char E) (E.cx - 1) = editor_update_row
            { prev with
              data := prev.data.take prev.size.toNat ++ row.data.take row.size.toNat
              size := prev.size + (row.size.toNat : Int) } := by
          rw [hj]
          exact row_at_mid _ A0 B _ rfl _ (by omega)
        have e1 : (editor_delete_char E).cx = E.cx - 1 := by rw [hj]
        have e2 : (editor_delete_char E).cy = prev.size := by rw [hj]
        have e3 : (editor_delete_char E).numrows = E.numrows - 1 := by rw [hj]
        unfold cursor_ok
        rw [e1, e2, e3, if_pos (by omega), hrow1, editor_update_row_size]
        dsimp only
        omega
  · have e : editor_delete_char E = E := by
      have k1 : E.cx = E.numrows := by omega
      simp [editor_delete_char, k1]
    rw [e]; exact hc'

theorem find_callback_loop_cursor (E : editor_config) (query : List Char) (hd : doc_ok E)
    (hc : cursor_ok E) : ∀ (fuel : Nat) (i : Int), 0 ≤ i →
    (fuel ≠ 0 → i + (fuel : Int) ≤ E.numrows) →
    cursor_ok (find_callback_loop E query fuel i) ∧
    (find_callback_loop E query fuel i).rows = E.rows ∧
    (find_callback_loop E query fuel i).numrows = E.numrows := by
  intro fuel
  induction fuel with
  | zero => intro i _ _; exact ⟨hc, rfl, rfl⟩
  | succ fuel ih =>
    intro i h0 h1
    have hi := h1 (by omega)
    push_cast at hi
    rw [find_callback_loop]
    rcases hs : strstr (row_at E i).render query with _ | off
    · exact ih (i + 1) (by omega) (fun hf => by omega)
    · have hsz := row_size_nonneg E hd i
      obtain ⟨r1, r2, _, _⟩ := ry_to_cy_spec (row_at E i) (off : Int) hsz
      refine ⟨⟨h0, by dsimp only; omega, r1, ?_⟩, rfl, rfl⟩
      dsimp only
      rw [if_pos (by omega)]
      exact r2

theorem find_callback_cursor (E : editor_config) (query : List Char) (key : Int)
    (hd : doc_ok E) (hc : cursor_ok E) :
    cursor_ok (editor_find_callback E query key) ∧
    doc_ok (editor_find_callback E query key) := by
  unfold editor_find_callback
  split_ifs
  · exact ⟨hc, hd⟩
  · obtain ⟨l1, l2, l3⟩ := find_callback_loop_cursor E query hd hc
      (E.numrows - (E.cx + 1)).toNat (E.cx + 1) (by have := hc.1; omega) (fun hf => by omega)
    exact ⟨l1, rows_all_fields _ E _ hd l2 l3⟩

/-- C16: in a state whose row count and row sizes agree with what is
stored, with a valid cursor (`0 ≤ cx ≤ numrows`, `0 ≤ cy ≤ size of row cx`,
`cy = 0` on the virtual row), `0 ≤ rowoff ≤ cx` and `screenrows ≥ 1`, every
key other than Ctrl-S and Ctrl-F (in particular a character, Enter,
Backspace, Delete, the four arrows, Home, End, PageUp and PageDown) that
`editor_process_keypress` handles without exiting leaves a state with a
valid cursor and a document that still agrees with what is stored; so does
`editor_find_callback`, and so does `editor_move_cursor (ARROW_LEFT)`, whose
column `size + 1` is clamped before it returns. -/
theorem keys_keep_cursor_valid (sv fd : editor_config → editor_config) (E : editor_config)
    (to_quit c : Int) (hd : doc_ok E) (hc : cursor_ok E) (hr0 : 0 ≤ E.rowoff)
    (hr : E.rowoff ≤ E.cx) (hs : 1 ≤ E.screenrows) :
    (c ≠ CTRL_KEY 's' → c ≠ CTRL_KEY 'f' → ∀ (E1 : editor_config) (q1 : Int),
      editor_process_keypress sv fd E to_quit c = .running E1 q1 →
        cursor_ok E1 ∧ doc_ok E1) ∧
    (∀ (query : List Char) (key : Int), cursor_ok (editor_find_callback E query key) ∧
      doc_ok (editor_find_callback E query key)) ∧
    cursor_ok (editor_move_cursor E ARROW_LEFT) := by
  have hc' := hc
  obtain ⟨c0, c1, c2, c3⟩ := hc
  have hmove : ∀ key : Int, cursor_ok (editor_move_cursor E key) ∧
      doc_ok (editor_move_cursor E key) := by
    intro key
    obtain ⟨m1, m2, m3⟩ := move_cursor_ok E key hd c0 c1 c2
    exact ⟨m1, rows_all_fields _ E _ hd m2 m3⟩
  refine ⟨?_, fun query key => find_callback_cursor E query key hd hc', (hmove _).1⟩
  intro hns hnf E1 q1 hrun
  unfold editor_process_keypress at hrun
  by_cases h1 : c = chr '\r'
  · rw [if_pos h1] at hrun
    cases hrun
    exact insert_new_line_cursor E hd hc'
  rw [if_neg h1] at hrun
  by_cases h2 : c = CTRL_KEY 'q'
  · rw [if_pos h2] at hrun
    split_ifs at hrun
    cases hrun
    exact ⟨hc', hd⟩
  rw [if_neg h2, if_neg hns, if_neg hnf] at hrun
  by_cases h4 : c = PAGE_UP ∨ c = PAGE_DOWN
  · rw [if_pos h4] at hrun
    simp only [iterate_move] at hrun
    have hn : 1 ≤ E.screenrows.toNat := by omega
    by_cases hup : c = PAGE_UP
    · simp only [hup, if_true] at hrun
      cases hrun
      obtain ⟨p1, p2, p3⟩ := repeat_move_ok ARROW_UP E.screenrows.toNat
        { E with cx := E.rowoff } (rows_all_fields _ E _ hd rfl rfl) hr0
        (by dsimp only; omega) c2 hn
      exact ⟨p1, rows_all_fields _ E _ hd p2 p3⟩
    · simp only [hup, if_false] at hrun
      by_cases hgt : E.rowoff + E.screenrows - 1 > E.numrows
      · simp only [hgt, if_true] at hrun
        cases hrun
        obtain ⟨p1, p2, p3⟩ := repeat_move_ok ARROW_DOWN E.screenrows.toNat
          { E with cx := E.numrows } (rows_all_fields _ E _ hd rfl rfl)
          (by dsimp only; omega) (le_refl _) c2 hn
        exact ⟨p1, rows_all_fields _ E _ hd p2 p3⟩
      · simp only [hgt, if_false] at hrun
        cases hrun
        obtain ⟨p1, p2, p3⟩ := repeat_move_ok ARROW_DOWN E.screenrows.toNat
          { E with cx := E.rowoff + E.screenrows - 1 } (rows_all_fields _ E _ hd rfl rfl)
          (by dsimp only; omega) (by dsimp only; omega) c2 hn
        exact ⟨p1, rows_all_fields _ E _ hd p2 p3⟩
  rw [if_neg h4] at hrun
  by_cases h5 : c = HOME_KEY
  · rw [if_pos h5] at hrun
    cases hrun
    exact ⟨cursor_ok_column_zero _ (rows_all_fields _ E _ hd rfl rfl) c0 c1 rfl,
      rows_all_fields _ E _ hd rfl rfl⟩
  rw [if_neg h5] at hrun
  by_cases h6 : c = END_KEY
  · rw [if_pos h6] at hrun
    cases hrun
    have hsz := row_size_nonneg E hd E.cx
    split_ifs with hlt
    · refine ⟨⟨c0, c1, hsz, ?_⟩, rows_all_fields _ E _ hd rfl rfl⟩
      dsimp only
      rw [if_pos hlt]
      exact le_refl _
    · exact ⟨hc', hd⟩
  rw [if_neg h6] at hrun
  by_cases h7 : c = BACKSPACE ∨ c = DEL_KEY ∨ c = CTRL_KEY 'h'
  · rw [if_pos h7] at hrun
    cases hrun
    split_ifs
    · exact delete_char_cursor _ (hmove _).2 (hmove _).1
    · exact delete_char_cursor E hd hc'
  rw [if_neg h7] at hrun
  by_cases h8 : c = ARROW_UP ∨ c = ARROW_DOWN ∨ c = ARROW_LEFT ∨ c = ARROW_RIGHT
  · rw [if_pos h8] at hrun
    cases hrun
    exact hmove c
  rw [if_neg h8] at hrun
  by_cases h9 : c = CTRL_KEY 'l' ∨ c = chr '\x1b'
  · rw [if_pos h9] at hrun
    cases hrun
    exact ⟨hc', hd⟩
  rw [if_neg h9] at hrun
  cases hrun
  exact insert_char_cursor E c hd hc'

/-- C16 on "abc", "def", "ghi" with the cursor at (1, 0): `ARROW_LEFT` goes
to the end of row 0, column 3 and not 4. -/
theorem keys_keep_cursor_valid_witness :
    doc_ok join_state ∧ cursor_ok join_state ∧ 0 ≤ join_state.rowoff ∧
    join_state.rowoff ≤ join_state.cx ∧ 1 ≤ join_state.screenrows ∧
    cursor_ok (editor_move_cursor join_state ARROW_LEFT) ∧
    (editor_move_cursor join_state ARROW_LEFT).cx = 0 ∧
    (editor_move_cursor join_state ARROW_LEFT).cy = 3 :=
  ⟨by decide, by decide, by decide, by decide, by decide,
    (keys_keep_cursor_valid id id join_state Q_TIMES_TO_QUIT ARROW_LEFT (by decide) (by decide)
      (by decide) (by decide) (by decide)).2.2, by decide, by decide⟩

/-! ## The capacity of a render -/

/-- The first loop of `editor_update_row` as a fold over the bytes of the
row. -/
theorem update_row_tabs_eq_foldl (row : erow) (h : row.size = (row.data.length : Int)) :
    update_row_tabs row =
      row.data.foldl (fun (tabs : Int) ch => if ch = '\t' then tabs + 1 else tabs) 0 := by
  have hk : row.size.toNat = row.data.length := by omega
  have e := foldl_range_getD (fun (tabs : Int) ch => if ch = '\t' then tabs + 1 else tabs)
    (Char.ofNat 0) row.data 0 row.size.toNat (by omega)
  have e2 : row.data.take row.size.toNat = row.data := by rw [hk, List.take_length]
  rw [e2] at e
  exact e

theorem count_tabs_foldl (l : List Char) :
    l.foldl (fun (tabs : Int) ch => if ch = '\t' then tabs + 1 else tabs) 0 =
      ((l.count '\t' : Nat) : Int) := by
  induction l using List.reverseRecOn with
  | nil => rfl
  | append_singleton l ch ih =>
    rw [List.foldl_concat, ih, List.count_append]
    by_cases hc : ch = '\t'
    · subst hc; simp
    · have : List.count '\t' [ch] = 0 := by
        simp [List.count_singleton]
        exact hc
      rw [if_neg hc, this]; simp

/-- A render is at most seven bytes longer than its data for each tab. -/
theorem tab_expansion_length_le (l : List Char) :
    (tab_expansion l).length ≤ l.length + 7 * l.count '\t' := by
  induction l using List.reverseRecOn with
  | nil => simp [tab_expansion, tab_expansion_from]
  | append_singleton l ch ih =>
    rw [tab_expansion_length_concat, List.length_append, List.length_singleton,
      List.count_append]
    by_cases hc : ch = '\t'
    · subst hc
      have hw : tab_width (tab_expansion l).length ≤ 8 := by unfold tab_width; omega
      rw [if_pos rfl]
      simp
      omega
    · have : List.count '\t' [ch] = 0 := by
        simp [List.count_singleton]
        exact hc
      rw [if_neg hc, this]
      omega

/-- C21: for a row whose `size` is the length of its data, the number `t`
that the first loop of `editor_update_row` counts is the number of tabs of
the data, the number of bytes written into `render` is
`rsize ≤ size + 7 * t`, and so `rsize`, the index of the terminator and the
largest index written (the bytes are written at the indices `0, 1, ...` one
after the other), is below the allocated `size + t * (PICO_TAB_STOP - 1) + 1`,
as is every index up to it. -/
theorem editor_update_row_within_capacity (row : erow)
    (h : row.size = (row.data.length : Int)) :
    update_row_tabs row = ((row.data.count '\t' : Nat) : Int) ∧
    (editor_update_row row).rsize ≤ row.size + 7 * update_row_tabs row ∧
    update_row_capacity row = row.size + update_row_tabs row * (PICO_TAB_STOP - 1) + 1 ∧
    (editor_update_row row).rsize < update_row_capacity row ∧
    (∀ i : Int, 0 ≤ i → i ≤ (editor_update_row row).rsize → i < update_row_capacity row) := by
  have hk : row.size.toNat = row.data.length := by omega
  have ht : update_row_tabs row = ((row.data.count '\t' : Nat) : Int) := by
    rw [update_row_tabs_eq_foldl row h, count_tabs_foldl]
  have hr : (editor_update_row row).rsize = ((tab_expansion row.data).length : Int) := by
    have e : (editor_update_row row).rsize = ((editor_update_row row).render.length : Int) := rfl
    rw [e, editor_update_row_render row (by omega), hk, List.take_length]
  have hle := tab_expansion_length_le row.data
  have hb : (editor_update_row row).rsize ≤ row.size + 7 * update_row_tabs row := by
    rw [hr, ht, h]; omega
  have hcap : update_row_capacity row = row.size + 7 * update_row_tabs row + 1 := by
    simp only [update_row_capacity, PICO_TAB_STOP]; omega
  refine ⟨ht, hb, rfl, by omega, fun i _ hi => by omega⟩

/-- C21 on the row "a\tb": one tab, 9 bytes of render, at most 3 + 7, in an
allocation of 11 bytes. -/
theorem editor_update_row_within_capacity_witness :
    tab_row.size = (tab_row.data.length : Int) ∧ update_row_tabs tab_row = 1 ∧
    (editor_update_row tab_row).rsize = 9 ∧ update_row_capacity tab_row = 11 ∧
    (editor_update_row tab_row).rsize < update_row_capacity tab_row :=
  ⟨by decide, by decide, by decide, by decide,
    (editor_update_row_within_capacity tab_row (by decide)).2.2.2.1⟩

end Editor
